import Mathlib

/-!
Verification of the mirbft core against its natural-language specification.

The Go sources are shallowly embedded:
* machine integers (`uint64`, `int`) become `Nat` (no overflow is exercised
  by any statement below);
* byte strings (`[]byte`, `string`) become `List Nat`;
* Go maps become association lists; where a Go `range` over a map occurs,
  the association list order stands for one concrete iteration order, so a
  function of the list models the function at that iteration order and
  quantification over permutations models the unspecified map order;
* `panic` becomes the `error` branch of an `Except`, or an explicit
  `panicked` outcome that carries the state observed at the panic.
-/

set_option autoImplicit false

namespace Mirbft

/-- Byte strings (`[]byte` / `string` in the Go source). -/
abbrev Bytes := List Nat

instance exceptDecEq {ε α : Type} [DecidableEq ε] [DecidableEq α] :
    DecidableEq (Except ε α) := fun a b =>
  match a, b with
  | .error e1, .error e2 =>
    if h : e1 = e2 then .isTrue (by rw [h])
    else .isFalse (fun hh => h (by injection hh))
  | .error _, .ok _ => .isFalse (fun hh => Except.noConfusion hh)
  | .ok _, .error _ => .isFalse (fun hh => Except.noConfusion hh)
  | .ok a1, .ok a2 =>
    if h : a1 = a2 then .isTrue (by rw [h])
    else .isFalse (fun hh => h (by injection hh))

/-! ## Network configuration and quorum arithmetic (from the stateless helpers file) -/

/-- The fields of `pb.NetworkState_Config` that the verified core reads. -/
structure NetConfig where
  nodes : List Nat
  f : Nat
  checkpointInterval : Nat
  maxEpochLength : Nat
deriving DecidableEq

/-- `intersectionQuorum`: `(len(nc.Nodes) + int(nc.F) + 2) / 2`. -/
def intersectionQuorum (nc : NetConfig) : Nat :=
  (nc.nodes.length + nc.f + 2) / 2

/-- `someCorrectQuorum`: `int(nc.F) + 1`. -/
def someCorrectQuorum (nc : NetConfig) : Nat :=
  nc.f + 1

/-! ## Per-peer message admitter (`nodemsgs.go`) -/

/-- The `applyable` classification enum. -/
inductive Applyable
  | past
  | current
  | future
  | invalid
deriving DecidableEq

/-- `nextMsg`: per-bucket cursors of the admitter. -/
structure NextMsg where
  leader : Bool
  prepare : Nat
  commit : Nat
deriving DecidableEq

/-- The fields of `epochConfig` read by `nodemsgs.go`: the epoch number, the
checkpoint interval, and the bucket-to-leader assignment (`buckets`),
modelled as an association list. -/
structure MsgEpochConfig where
  number : Nat
  checkpointInterval : Nat
  buckets : List (Nat × Nat)
deriving DecidableEq

/-- `epochMsgs`: the per-epoch part of the admitter; `next` is the
`map[BucketID]*nextMsg`. -/
structure EpochMsgs where
  epochConfig : MsgEpochConfig
  next : List (Nat × NextMsg)
deriving DecidableEq

/-- Association-list lookup standing for a Go map read `m[k]`. -/
def alist.lookup {β : Type} (l : List (Nat × β)) (k : Nat) : Option β :=
  (l.find? (fun p => p.1 == k)).map (fun p => p.2)

/-- Association-list update standing for the in-place mutation of the
`*nextMsg` held in the Go map. -/
def alist.update {β : Type} (l : List (Nat × β)) (k : Nat) (v : β) : List (Nat × β) :=
  l.map (fun p => if p.1 == k then (p.1, v) else p)

/-- The admitter state of `nodeMsgs` (without the message buffer, which is
external to the classification functions verified here); `oddities` is the
recorder of non-fatal anomalies. Modelled from the spec: the `oddities`
type is not part of the given sources, and the spec says oddities are
"counted in an `oddities` recorder", so it is modelled as a counter. -/
structure NodeMsgsSt where
  id : Nat
  oddities : Nat
  epochMsgs : EpochMsgs
  nextCheckpoint : Nat
deriving DecidableEq

/-- Inbound messages (`pb.Msg`), restricted to the fields the admitter
reads. `unknown` stands for any `Msg.Type` variant outside the recognized
ones (Go's `default` branch of the type switch). -/
inductive Msg
  | preprepareMsg (epoch seqNo bucket : Nat)
  | prepareMsg (epoch seqNo bucket : Nat) (digest : Bytes)
  | commitMsg (epoch seqNo bucket : Nat) (digest : Bytes)
  | suspectMsg (epoch : Nat)
  | checkpointMsg (seqNo : Nat) (value : Bytes)
  | forwardMsg (epoch : Nat)
  | epochChangeMsg (newEpoch : Nat)
  | newEpochMsg
  | unknown
deriving DecidableEq

/-- `newEpochMsgs`: every bucket's cursors start at `prepare = commit = 1`. -/
def newEpochMsgs (nodeID : Nat) (epochConfig : MsgEpochConfig) : EpochMsgs :=
  { epochConfig := epochConfig
    next := epochConfig.buckets.map (fun p =>
      (p.1, { leader := nodeID == p.2, prepare := 1, commit := 1 })) }

/-- `newNodeMsgs`: `nextCheckpoint` starts at `checkpointInterval`. -/
def newNodeMsgs (nodeID : Nat) (epochConfig : MsgEpochConfig) : NodeMsgsSt :=
  { id := nodeID
    oddities := 0
    epochMsgs := newEpochMsgs nodeID epochConfig
    nextCheckpoint := epochConfig.checkpointInterval }

/-- `epochMsgs.processPreprepare`. -/
def EpochMsgs.processPreprepare (n : EpochMsgs) (seqNo bucket : Nat) :
    Applyable × EpochMsgs :=
  match alist.lookup n.next bucket with
  | none => (.invalid, n)
  | some next =>
    if !next.leader then (.invalid, n)
    else if seqNo < next.prepare then (.past, n)
    else if next.prepare = seqNo then
      (.current, { n with next := alist.update n.next bucket { next with prepare := seqNo + 1 } })
    else (.future, n)

/-- `epochMsgs.processPrepare`. -/
def EpochMsgs.processPrepare (n : EpochMsgs) (seqNo bucket : Nat) :
    Applyable × EpochMsgs :=
  match alist.lookup n.next bucket with
  | none => (.invalid, n)
  | some next =>
    if next.leader then (.invalid, n)
    else if seqNo < next.prepare then (.past, n)
    else if next.prepare = seqNo then
      (.current, { n with next := alist.update n.next bucket { next with prepare := seqNo + 1 } })
    else (.future, n)

/-- `epochMsgs.processCommit`. -/
def EpochMsgs.processCommit (n : EpochMsgs) (seqNo bucket : Nat) :
    Applyable × EpochMsgs :=
  match alist.lookup n.next bucket with
  | none => (.invalid, n)
  | some next =>
    if seqNo < next.commit then (.past, n)
    else if next.commit = seqNo ∧ next.commit < next.prepare then
      (.current, { n with next := alist.update n.next bucket { next with commit := seqNo + 1 } })
    else (.future, n)

/-- `epochMsgs.process`: dispatch to the bucket classifiers; the checkpoint
and new-epoch arms are programmer-error panics in the source. -/
def EpochMsgs.process (n : EpochMsgs) (m : Msg) :
    Except String (Applyable × EpochMsgs) :=
  match m with
  | .preprepareMsg _ s b => .ok (n.processPreprepare s b)
  | .prepareMsg _ s b _ => .ok (n.processPrepare s b)
  | .commitMsg _ s b _ => .ok (n.processCommit s b)
  | .checkpointMsg _ _ => .error "programming error, checkpoints should not go through this path"
  | .forwardMsg _ => .ok (.current, n)
  | .suspectMsg _ => .ok (.current, n)
  | .epochChangeMsg _ => .ok (.current, n)
  | .newEpochMsg => .error "programming error, new epochs should not go through this path"
  | .unknown => .error "programming error, unreachable"

/-- `nodeMsgs.processCheckpoint`. -/
def NodeMsgsSt.processCheckpoint (n : NodeMsgsSt) (seqNo : Nat) (_value : Bytes) :
    Applyable × NodeMsgsSt :=
  if seqNo < n.nextCheckpoint then (.past, n)
  else if n.nextCheckpoint = seqNo then
    if n.epochMsgs.next.any (fun p => p.2.commit < seqNo) then (.future, n)
    else (.current,
      { n with nextCheckpoint := seqNo + n.epochMsgs.epochConfig.checkpointInterval })
  else (.future, n)

/-- Outcome of `nodeMsgs.process`: either a classification with the updated
state, or a panic (with the state as mutated before the panic). -/
inductive ProcessOutcome
  | res (a : Applyable) (st : NodeMsgsSt)
  | panicked (msg : String) (st : NodeMsgsSt)
deriving DecidableEq

/-- The epoch-number comparison of `nodeMsgs.process` (lines 99-104 of
`nodemsgs.go`), exactly as written in the source: `number < epoch` yields
`past` and `number > epoch` yields `future`; equality delegates to
`epochMsgs.process`. -/
def NodeMsgsSt.admitByEpoch (n : NodeMsgsSt) (m : Msg) (epoch : Nat) : ProcessOutcome :=
  if n.epochMsgs.epochConfig.number < epoch then .res .past n
  else if n.epochMsgs.epochConfig.number > epoch then .res .future n
  else
    match n.epochMsgs.process m with
    | .error s => .panicked s n
    | .ok (a, em) => .res a { n with epochMsgs := em }

/-- `nodeMsgs.process`. -/
def NodeMsgsSt.process (n : NodeMsgsSt) (m : Msg) : ProcessOutcome :=
  match m with
  | .preprepareMsg e _ _ => n.admitByEpoch m e
  | .prepareMsg e _ _ _ => n.admitByEpoch m e
  | .commitMsg e _ _ _ => n.admitByEpoch m e
  | .suspectMsg e => n.admitByEpoch m e
  | .checkpointMsg s v =>
    let r := n.processCheckpoint s v
    .res r.1 r.2
  | .forwardMsg e => n.admitByEpoch m e
  | .epochChangeMsg ne => n.admitByEpoch m ne
  | .newEpochMsg => .res .current n
  | .unknown => .panicked "unknown message type" { n with oddities := n.oddities + 1 }

/-! Reachable admitter states for the bucket-cursor invariant: the initial
state of an epoch, closed under processing arbitrary preprepare, prepare
and commit messages. -/

/-- One bucket-classifier step of the admitter. -/
inductive EMStep : EpochMsgs → EpochMsgs → Prop
  | preprepareStep (em : EpochMsgs) (s b : Nat) : EMStep em (em.processPreprepare s b).2
  | prepareStep (em : EpochMsgs) (s b : Nat) : EMStep em (em.processPrepare s b).2
  | commitStep (em : EpochMsgs) (s b : Nat) : EMStep em (em.processCommit s b).2

/-- States of `epochMsgs` reachable from the initial state of an epoch. -/
inductive EMReachable (nodeID : Nat) (epochConfig : MsgEpochConfig) : EpochMsgs → Prop
  | init : EMReachable nodeID epochConfig (newEpochMsgs nodeID epochConfig)
  | step {em em' : EpochMsgs} : EMReachable nodeID epochConfig em → EMStep em em' →
      EMReachable nodeID epochConfig em'

/-! ## The per-slot sequence state machine (sequence source file)

The embedding tracks the state-bearing fields of `sequence`; the emitted
`Actions` (sends, hash requests, persist entries) are external I/O and are
not modelled, since no statement below concerns them. `myId` is the
`myConfig.Id` field read by the quorum checks. -/

/-- The `sequenceState` enum. -/
inductive SequenceState
  | uninitialized
  | allocated
  | pendingRequests
  | ready
  | preprepared
  | prepared
  | committed
deriving DecidableEq

/-- The fields of `pb.RequestAck` the sequence reads (only the digest). -/
structure RequestAck where
  digest : Bytes
deriving DecidableEq

/-- `pb.QEntry` as built by `prepare()`. The digest is `Option Bytes`
because the Go `[]byte` may be nil (no-op batch). -/
structure QEntry where
  seqNo : Nat
  digest : Option Bytes
  requests : List RequestAck
deriving DecidableEq

/-- The state-bearing fields of `sequence`. `prepares` and `commits` are
the Go `map[string]map[nodeID]struct{}` tallies: association lists from
digest key to the set (duplicate-free list) of node ids. -/
structure Seq where
  owner : Nat
  seqNo : Nat
  epoch : Nat
  myId : Nat
  networkConfig : NetConfig
  state : SequenceState
  qEntry : Option QEntry
  batch : List RequestAck
  outstandingReqs : List Bytes
  digest : Option Bytes
  prepares : List (Bytes × List Nat)
  commits : List (Bytes × List Nat)
deriving DecidableEq

/-- The Go key `string(digest)`: a nil `[]byte` and an empty one both key
to the empty string. -/
def keyOf (digest : Option Bytes) : Bytes :=
  digest.getD []

/-- Read a tally set: `s.prepares[string(digest)]`, with a missing key read
as the empty set (Go's nil map value). -/
def lookupTally (m : List (Bytes × List Nat)) (k : Bytes) : List Nat :=
  ((m.find? (fun p => p.1 == k)).map (fun p => p.2)).getD []

/-- Record `source` in the tally set under key `k`, creating the set if
absent (the `agreements == nil` branch of the source). -/
def recordTally (m : List (Bytes × List Nat)) (k : Bytes) (source : Nat) :
    List (Bytes × List Nat) :=
  match m.find? (fun p => p.1 == k) with
  | none => m ++ [(k, [source])]
  | some _ =>
    m.map (fun p =>
      if p.1 == k then (p.1, if p.2.contains source then p.2 else p.2 ++ [source]) else p)

/-- `checkRequests`: promote to `Ready` once `outstandingReqs` is empty. -/
def Seq.checkRequests (s : Seq) : Seq :=
  if s.outstandingReqs.length > 0 then s
  else { s with state := .ready }

/-- The mutation performed by `prepare()`: build the QEntry and promote to
`Preprepared` (the emitted Preprepare/Prepare sends are external I/O). -/
def Seq.prepareStep (s : Seq) : Seq :=
  { s with qEntry := some ⟨s.seqNo, s.digest, s.batch⟩, state := .preprepared }

/-- `checkPrepareQuorum`: promote to `Prepared` only when the tally under
this node's own digest contains `myConfig.Id` and reaches
`intersectionQuorum`. -/
def Seq.checkPrepareQuorum (s : Seq) : Seq :=
  if s.myId ∈ lookupTally s.prepares (keyOf s.digest) then
    if (lookupTally s.prepares (keyOf s.digest)).length < intersectionQuorum s.networkConfig
    then s
    else { s with state := .prepared }
  else s

/-- `checkCommitQuorum`: promote to `Committed` only when the tally under
this node's own digest contains `myConfig.Id` and reaches
`intersectionQuorum`. -/
def Seq.checkCommitQuorum (s : Seq) : Seq :=
  if s.myId ∈ lookupTally s.commits (keyOf s.digest) then
    if (lookupTally s.commits (keyOf s.digest)).length < intersectionQuorum s.networkConfig
    then s
    else { s with state := .committed }
  else s

/-- One evaluation of the `switch` in `advanceState`. -/
def Seq.advanceStep (s : Seq) : Seq :=
  match s.state with
  | .uninitialized => s
  | .allocated => s
  | .pendingRequests => s.checkRequests
  | .ready =>
    if s.digest.isSome ∨ s.batch.length = 0 then s.prepareStep else s
  | .preprepared => s.checkPrepareQuorum
  | .prepared => s.checkCommitQuorum
  | .committed => s

/-- The `advanceState` fixpoint loop, with fuel; each continuing iteration
strictly advances the state enum, so fuel 7 always reaches the fixpoint. -/
def Seq.advanceLoop : Nat → Seq → Seq
  | 0, s => s
  | fuel + 1, s =>
    let t := s.advanceStep
    if t.state = s.state then t else Seq.advanceLoop fuel t

/-- `advanceState`. -/
def Seq.advanceState (s : Seq) : Seq :=
  s.advanceLoop 7

/-- `applyPrepareMsg(source, digest)`: record the source under the given
digest's key and drive the state machine. -/
def Seq.applyPrepareMsg (s : Seq) (source : Nat) (digest : Option Bytes) : Seq :=
  Seq.advanceState { s with prepares := recordTally s.prepares (keyOf digest) source }

/-- `applyCommitMsg(source, digest)`. -/
def Seq.applyCommitMsg (s : Seq) (source : Nat) (digest : Option Bytes) : Seq :=
  Seq.advanceState { s with commits := recordTally s.commits (keyOf digest) source }

/-- `applyBatchHashResult(digest)`: store the digest, then apply the
sequence owner's prepare. -/
def Seq.applyBatchHashResult (s : Seq) (digest : Option Bytes) : Seq :=
  Seq.applyPrepareMsg { s with digest := digest } s.owner digest

/-- `allocate(requestAcks, outstandingReqs)`: fatal outside
`Uninitialized`; an empty batch short-circuits to `Ready` with a nil
digest. -/
def Seq.allocate (s : Seq) (requestAcks : List RequestAck) (outstandingReqs : List Bytes) :
    Except String Seq :=
  if s.state ≠ .uninitialized then .error "illegal state for allocate"
  else
    let s1 := { s with state := .allocated, batch := requestAcks,
                       outstandingReqs := outstandingReqs }
    if requestAcks.length = 0 then
      .ok (Seq.applyBatchHashResult { s1 with state := .ready } none)
    else
      .ok (Seq.advanceState { s1 with state := .pendingRequests })

/-- `satisfyOutstanding(fr)`: fatal if the digest is not outstanding. -/
def Seq.satisfyOutstanding (s : Seq) (fr : RequestAck) : Except String Seq :=
  if s.outstandingReqs.contains fr.digest then
    .ok (Seq.advanceState
      { s with outstandingReqs := s.outstandingReqs.filter (fun d => !(d == fr.digest)) })
  else .error "dev sanity check"

/-- The operations of the sequence state machine, for quantifying over a
single call. -/
inductive SeqOp
  | allocateOp (requestAcks : List RequestAck) (outstandingReqs : List Bytes)
  | satisfyOutstandingOp (fr : RequestAck)
  | applyBatchHashResultOp (digest : Option Bytes)
  | applyPrepareMsgOp (source : Nat) (digest : Option Bytes)
  | applyCommitMsgOp (source : Nat) (digest : Option Bytes)
deriving DecidableEq

/-- Apply one operation; a `panic` in the source is the `error` branch. -/
def applySeqOp (op : SeqOp) (s : Seq) : Except String Seq :=
  match op with
  | .allocateOp a o => s.allocate a o
  | .satisfyOutstandingOp fr => s.satisfyOutstanding fr
  | .applyBatchHashResultOp d => .ok (s.applyBatchHashResult d)
  | .applyPrepareMsgOp src d => .ok (s.applyPrepareMsg src d)
  | .applyCommitMsgOp src d => .ok (s.applyCommitMsg src d)

/-- Numeric rank of the (strictly ordered) state enum. -/
def stateRank : SequenceState → Nat
  | .uninitialized => 0
  | .allocated => 1
  | .pendingRequests => 2
  | .ready => 3
  | .preprepared => 4
  | .prepared => 5
  | .committed => 6

/-- The prepare-quorum condition of `checkPrepareQuorum`, as a predicate on
a state: the local node is in the tally under the node's own digest and
that tally reaches the intersection quorum. -/
def PrepQuorum (s : Seq) : Prop :=
  s.myId ∈ lookupTally s.prepares (keyOf s.digest) ∧
    intersectionQuorum s.networkConfig ≤ (lookupTally s.prepares (keyOf s.digest)).length

/-- The commit-quorum condition of `checkCommitQuorum`. -/
def CommitQuorum (s : Seq) : Prop :=
  s.myId ∈ lookupTally s.commits (keyOf s.digest) ∧
    intersectionQuorum s.networkConfig ≤ (lookupTally s.commits (keyOf s.digest)).length

instance (s : Seq) : Decidable (PrepQuorum s) := by
  unfold PrepQuorum; infer_instance

instance (s : Seq) : Decidable (CommitQuorum s) := by
  unfold CommitQuorum; infer_instance

/-! ## Epoch changes and `constructNewEpochConfig` (stateless helpers file)

Go maps (`epochChanges : map[NodeID]*parsedEpochChange`, the grouped
`checkpoints` map, and the parsed `pSet`/`qSet` maps) are embedded as
association lists; a list stands for the map together with one concrete
iteration order, and quantification over permutations models Go's
unspecified map iteration order. -/

/-- `pb.Checkpoint` as carried inside an EpochChange. -/
structure CheckpointMsg where
  seqNo : Nat
  value : Bytes
deriving DecidableEq

/-- `pb.EpochChange_SetEntry`. -/
structure SetEntry where
  epoch : Nat
  seqNo : Nat
  digest : Bytes
deriving DecidableEq

/-- `pb.EpochChange`. -/
structure EpochChange where
  newEpoch : Nat
  checkpoints : List CheckpointMsg
  pSet : List SetEntry
  qSet : List SetEntry
deriving DecidableEq

/-- `parsedEpochChange`: the underlying message plus the derived
`lowWatermark`, the `pSet` map from seq-no to entry, and the `qSet` map
from seq-no to the map from epoch to digest. -/
structure ParsedEpochChange where
  underlying : EpochChange
  lowWatermark : Nat
  pSet : List (Nat × SetEntry)
  qSet : List (Nat × List (Nat × Bytes))
deriving DecidableEq

/-- The epoch-changes map, in one concrete iteration order. -/
abbrev ECList := List (Nat × ParsedEpochChange)

/-- The keys of the epoch-changes map are distinct (it is a Go map). -/
def ECKeysNodup (l : ECList) : Prop :=
  (l.map (fun e => e.1)).Nodup

/-- `epochChange.pSet[seqNo]`. -/
def pSetLookup (ec : ParsedEpochChange) (seqNo : Nat) : Option SetEntry :=
  (ec.pSet.find? (fun p => p.1 == seqNo)).map (fun p => p.2)

/-- `epochChange.qSet[seqNo]`. -/
def qSetLookup (ec : ParsedEpochChange) (seqNo : Nat) : Option (List (Nat × Bytes)) :=
  (ec.qSet.find? (fun p => p.1 == seqNo)).map (fun p => p.2)

/-- `epochChanges[nodeID]`. -/
def ecLookup (l : ECList) (nodeID : Nat) : Option ParsedEpochChange :=
  (l.find? (fun e => e.1 == nodeID)).map (fun e => e.2)

/-- The `checkpointKey` grouping key. -/
structure CkKey where
  seqNo : Nat
  value : Bytes
deriving DecidableEq

/-- Every checkpoint key reported by any epoch change, one occurrence per
report: the multiset underlying the grouped `checkpoints` map, whose
per-key count is the `supporters` length. -/
def allCkKeys (l : ECList) : List CkKey :=
  l.flatMap (fun e => e.2.underlying.checkpoints.map (fun c => ⟨c.seqNo, c.value⟩))

/-- `len(supporters)` for a checkpoint key. -/
def supportCount (l : ECList) (k : CkKey) : Nat :=
  (allCkKeys l).count k

/-- `nodesWithLowerWatermark` for a candidate seq-no. -/
def lowWatermarkCount (l : ECList) (seqNo : Nat) : Nat :=
  (l.filter (fun e => e.2.lowWatermark ≤ seqNo)).length

/-- A checkpoint key that survives both `continue` filters of the selection
loop: enough supporters and enough low watermarks. -/
def ckAdmissible (cfg : NetConfig) (l : ECList) (k : CkKey) : Bool :=
  someCorrectQuorum cfg ≤ supportCount l k ∧ intersectionQuorum cfg ≤ lowWatermarkCount l k.seqNo

/-- The `maxCheckpoint` selection loop over the grouped checkpoint keys, in
the iteration order given by the key list; the same-seq-no comparison is
the safety-failure panic of the source. -/
def selectCkLoop (cfg : NetConfig) (l : ECList) :
    Option CkKey → List CkKey → Except Unit (Option CkKey)
  | acc, [] => .ok acc
  | acc, k :: ks =>
    if ckAdmissible cfg l k then
      match acc with
      | none => selectCkLoop cfg l (some k) ks
      | some m =>
        if k.seqNo < m.seqNo then selectCkLoop cfg l acc ks
        else if m.seqNo = k.seqNo then .error ()
        else selectCkLoop cfg l (some k) ks
    else selectCkLoop cfg l acc ks

/-- The candidate keys of the grouped `checkpoints` map, in the iteration
order induced by the epoch-changes list. -/
def candidateKeys (l : ECList) : List CkKey :=
  (allCkKeys l).dedup

/-- Step 1 of `constructNewEpochConfig`: select the starting checkpoint, or
abort on the safety-failure panic. -/
def selectCheckpoint (cfg : NetConfig) (l : ECList) : Except Unit (Option CkKey) :=
  selectCkLoop cfg l none (candidateKeys l)

/-- The `a1Count` loop for a candidate entry at a seq-no. -/
def a1Count (l : ECList) (seqNo : Nat) (entry : SetEntry) : Nat :=
  l.foldl (fun acc e =>
    if seqNo ≤ e.2.lowWatermark then acc
    else
      match pSetLookup e.2 seqNo with
      | none => acc + 1
      | some iEntry =>
        if iEntry.epoch < entry.epoch then acc + 1
        else if entry.epoch < iEntry.epoch then acc
        else if entry.digest = iEntry.digest then acc + 1
        else acc) 0

/-- The `a2Count` loop: epoch changes whose `qSet[seqNo]` holds any entry
at an epoch at least the candidate's with the candidate's digest. -/
def a2Count (l : ECList) (seqNo : Nat) (entry : SetEntry) : Nat :=
  l.foldl (fun acc e =>
    match qSetLookup e.2 seqNo with
    | none => acc
    | some epochEntries =>
      if epochEntries.any (fun p => entry.epoch ≤ p.1 ∧ p.2 = entry.digest) then acc + 1
      else acc) 0

/-- The condition-B count: peers with `lowWatermark < seqNo` and no
`pSet[seqNo]` entry. -/
def bCount (l : ECList) (seqNo : Nat) : Nat :=
  (l.filter (fun e => e.2.lowWatermark < seqNo ∧ (pSetLookup e.2 seqNo).isNone)).length

/-- Condition A of `constructNewEpochConfig`: scan `config.Nodes` in order,
and pick the first peer whose `pSet[seqNo]` entry passes both the A1 and A2
thresholds. -/
def selectEntry (cfg : NetConfig) (l : ECList) (seqNo : Nat) : Option SetEntry :=
  cfg.nodes.findSome? (fun nid =>
    match ecLookup l nid with
    | none => none
    | some ec =>
      match pSetLookup ec seqNo with
      | none => none
      | some entry =>
        if intersectionQuorum cfg ≤ a1Count l seqNo entry then
          if someCorrectQuorum cfg ≤ a2Count l seqNo entry then some entry
          else none
        else none)

/-- The `FinalPreprepares` fill loop: one slot per offset below
`2 * checkpointInterval`; a slot gets `some digest` by condition A, `none`
by condition B, and the whole construction returns `none` ("insufficient")
when neither holds. -/
def fillFinalPreprepares (cfg : NetConfig) (l : ECList) (maxSeqNo : Nat) :
    Nat → Nat → Option (List (Option Bytes))
  | _, 0 => some []
  | offset, remaining + 1 =>
    let seqNo := maxSeqNo + offset + 1
    match selectEntry cfg l seqNo with
    | some entry =>
      (fillFinalPreprepares cfg l maxSeqNo (offset + 1) remaining).map
        (fun rest => some entry.digest :: rest)
    | none =>
      if intersectionQuorum cfg ≤ bCount l seqNo then
        (fillFinalPreprepares cfg l maxSeqNo (offset + 1) remaining).map
          (fun rest => none :: rest)
      else none

/-- `pb.EpochConfig` as built by the constructor. -/
structure EpochConfigOut where
  number : Nat
  leaders : List Nat
  plannedExpiration : Nat
deriving DecidableEq

/-- `pb.NewEpochConfig`. `finalPreprepares = none` models the nil slice
emitted when no slot was selected by condition A; a `none` element models a
nil digest. -/
structure NewEpochConfigOut where
  config : EpochConfigOut
  startingCheckpoint : CheckpointMsg
  finalPreprepares : Option (List (Option Bytes))
deriving DecidableEq

/-- The `newEpochNumber` variable: overwritten on every iteration of the
grouping loop, so it ends as the last iterated epoch change's `NewEpoch`. -/
def lastNewEpoch (l : ECList) : Nat :=
  l.foldl (fun _ e => e.2.underlying.newEpoch) 0

/-- `constructNewEpochConfig`, over the epoch-changes map in one concrete
iteration order. `.error ()` is the safety-failure panic; `.ok none` is the
nil ("insufficient evidence") return. -/
def constructNewEpochConfig (cfg : NetConfig) (newLeaders : List Nat) (l : ECList) :
    Except Unit (Option NewEpochConfigOut) :=
  match selectCheckpoint cfg l with
  | .error () => .error ()
  | .ok none => .ok none
  | .ok (some maxCk) =>
    match fillFinalPreprepares cfg l maxCk.seqNo 0 (2 * cfg.checkpointInterval) with
    | none => .ok none
    | some fps =>
      .ok (some
        { config :=
            { number := lastNewEpoch l
              leaders := newLeaders
              plannedExpiration := maxCk.seqNo + cfg.maxEpochLength }
          startingCheckpoint := ⟨maxCk.seqNo, maxCk.value⟩
          finalPreprepares := if fps.all (fun d => d.isNone) then none else some fps })

/-! ## `epochChangeHashData` -/

/-- Modelled from the spec: `uint64ToBytes` is not part of the given
sources; per the spec, integers are fixed-width 8-byte big-endian. -/
def uint64ToBytes (n : Nat) : Bytes :=
  [n / 2 ^ 56 % 256, n / 2 ^ 48 % 256, n / 2 ^ 40 % 256, n / 2 ^ 32 % 256,
   n / 2 ^ 24 % 256, n / 2 ^ 16 % 256, n / 2 ^ 8 % 256, n % 256]

/-- `epochChangeHashData`: the canonical byte-string layout, with the final
length check (`.error` is the "this is bad" panic). The index-assignment
loops of the source write `[new_epoch]`, then the checkpoint pairs in
order, then the pSet triples, then the qSet triples, over exactly the
allocated indices, which is this concatenation. -/
def epochChangeHashData (ec : EpochChange) : Except String (List Bytes) :=
  let hashData :=
    [uint64ToBytes ec.newEpoch]
      ++ ec.checkpoints.flatMap (fun cp => [uint64ToBytes cp.seqNo, cp.value])
      ++ ec.pSet.flatMap (fun p => [uint64ToBytes p.epoch, uint64ToBytes p.seqNo, p.digest])
      ++ ec.qSet.flatMap (fun q => [uint64ToBytes q.epoch, uint64ToBytes q.seqNo, q.digest])
  if 1 + ec.checkpoints.length * 2 + ec.pSet.length * 3 + ec.qSet.length * 3
      = hashData.length then
    .ok hashData
  else .error "TODO, remove me, but this is bad"

/-! ## Statement-level predicates -/

/-- The epoch-change entry counted by the A1 loop of the source: its
low watermark is strictly below the seq-no, and it either has no
`pSet[seqNo]` entry, or has one at a lower epoch, or one at the same epoch
with the candidate's digest. -/
def a1Counted (seqNo : Nat) (entry : SetEntry) (e : Nat × ParsedEpochChange) : Bool :=
  decide (e.2.lowWatermark < seqNo) &&
    match pSetLookup e.2 seqNo with
    | none => true
    | some iEntry =>
      decide (iEntry.epoch < entry.epoch) ||
        (decide (iEntry.epoch = entry.epoch) && decide (iEntry.digest = entry.digest))

/-- The A1 membership exactly as the spec sentence words it: entries with
`low_watermark ≥ seq_no` are included ("cannot contradict"). This follows
the spec's words, for comparison against the source's `a1Count`. -/
def a1CountClaim (l : ECList) (seqNo : Nat) (entry : SetEntry) : Nat :=
  (l.filter (fun e =>
    decide (seqNo ≤ e.2.lowWatermark) ||
      match pSetLookup e.2 seqNo with
      | none => true
      | some iEntry =>
        decide (iEntry.epoch < entry.epoch) ||
          (decide (iEntry.epoch = entry.epoch) && decide (iEntry.digest = entry.digest)))).length

/-- The epoch-change entry counted by the A2 loop of the source: its
`qSet[seqNo]` holds an entry at an epoch at least the candidate's with the
candidate's digest. -/
def a2Counted (seqNo : Nat) (entry : SetEntry) (e : Nat × ParsedEpochChange) : Bool :=
  match qSetLookup e.2 seqNo with
  | none => false
  | some epochEntries =>
    epochEntries.any (fun p => entry.epoch ≤ p.1 ∧ p.2 = entry.digest)

/-- The result of the `maxCheckpoint` selection loop, characterized
extensionally: `none` when no reported key is admissible, otherwise an
admissible reported key whose seq-no dominates every admissible reported
key. -/
def SelSpec (cfg : NetConfig) (l : ECList) : Option CkKey → Prop
  | none => ∀ k ∈ allCkKeys l, ¬ ckAdmissible cfg l k = true
  | some m => m ∈ allCkKeys l ∧ ckAdmissible cfg l m = true ∧
      ∀ k ∈ allCkKeys l, ckAdmissible cfg l k = true → k.seqNo ≤ m.seqNo

/-- All parsed epoch changes of the map carry the same `NewEpoch`. -/
def SameNewEpoch (l : ECList) : Prop :=
  ∀ e1 ∈ l, ∀ e2 ∈ l, e1.2.underlying.newEpoch = e2.2.underlying.newEpoch

/-- No two distinct admissible checkpoint candidates share a seq-no. -/
def NoCkConflict (cfg : NetConfig) (l : ECList) : Prop :=
  ∀ k1 ∈ allCkKeys l, ∀ k2 ∈ allCkKeys l,
    ckAdmissible cfg l k1 → ckAdmissible cfg l k2 → k1.seqNo = k2.seqNo → k1 = k2

instance (l : ECList) : Decidable (SameNewEpoch l) := by
  unfold SameNewEpoch; infer_instance

instance (l : ECList) : Decidable (ECKeysNodup l) := by
  unfold ECKeysNodup; infer_instance

instance (cfg : NetConfig) (l : ECList) : Decidable (NoCkConflict cfg l) := by
  unfold NoCkConflict; infer_instance

/-! ## Concrete instances used by witnesses and counterexamples -/

/-- One-node network: `intersectionQuorum = 1`, `someCorrectQuorum = 1`. -/
def exCfg1 : NetConfig :=
  { nodes := [0], f := 0, checkpointInterval := 0, maxEpochLength := 0 }

/-- Two-node network with `f = 0`: `intersectionQuorum = 2`,
`someCorrectQuorum = 1`; zero checkpoint interval. -/
def exCfg2 : NetConfig :=
  { nodes := [0, 1], f := 0, checkpointInterval := 0, maxEpochLength := 10 }

/-- An admitter epoch config at epoch number 2 with one bucket led by
node 1, checkpoint interval 1. -/
def exMsgCfg : MsgEpochConfig :=
  { number := 2, checkpointInterval := 1, buckets := [(0, 1)] }

/-- The initial admitter state of node 0 for `exMsgCfg`. -/
def exNodeMsgs : NodeMsgsSt :=
  newNodeMsgs 0 exMsgCfg

/-- A sequence of node 0 (owner 0), digest `[1]`, in `Preprepared` with
empty tallies. -/
def exSeqPre : Seq :=
  { owner := 0, seqNo := 1, epoch := 0, myId := 0, networkConfig := exCfg1,
    state := .preprepared, qEntry := none, batch := [], outstandingReqs := [],
    digest := some [1], prepares := [], commits := [] }

/-- The state after node 0 receives its own prepare for digest `[1]`. -/
def exSeqPre' : Seq :=
  exSeqPre.applyPrepareMsg 0 (some [1])

/-- A sequence at node 0 whose bucket owner is node 1 (a non-leader's
slot), still uninitialized. -/
def exSeqOther : Seq :=
  { owner := 1, seqNo := 1, epoch := 0, myId := 0, networkConfig := exCfg2,
    state := .uninitialized, qEntry := none, batch := [], outstandingReqs := [],
    digest := none, prepares := [], commits := [] }

/-- A parsed epoch change with a single checkpoint `(5, [7])`,
low watermark 5, empty sets, `NewEpoch` as given. -/
def exEC (newEpoch : Nat) : ParsedEpochChange :=
  { underlying := { newEpoch := newEpoch, checkpoints := [⟨5, [7]⟩], pSet := [], qSet := [] }
    lowWatermark := 5, pSet := [], qSet := [] }

/-- Epoch-changes map `{0 ↦ exEC 1, 1 ↦ exEC 2}` in one iteration order. -/
def exECl12 : ECList := [(0, exEC 1), (1, exEC 2)]

/-- The same map in the other iteration order. -/
def exECl21 : ECList := [(1, exEC 2), (0, exEC 1)]

/-- Both nodes report `NewEpoch = 1`. -/
def exECsame12 : ECList := [(0, exEC 1), (1, exEC 1)]

/-- The same-`NewEpoch` map in the other iteration order. -/
def exECsame21 : ECList := [(1, exEC 1), (0, exEC 1)]

/-- A map where nodes 0 and 1 report conflicting checkpoints `(5, [1])`
versus `(5, [2])`, and node 0 additionally reports `(9, [3])`: every key is
admissible under `exCfg2`. -/
def exECconflictHigh : ECList :=
  [(0, { underlying := { newEpoch := 1, checkpoints := [⟨9, [3]⟩, ⟨5, [1]⟩], pSet := [], qSet := [] }
         lowWatermark := 5, pSet := [], qSet := [] }),
   (1, { underlying := { newEpoch := 1, checkpoints := [⟨5, [2]⟩], pSet := [], qSet := [] }
         lowWatermark := 5, pSet := [], qSet := [] })]

/-- A map where the conflicting admissible checkpoints `(5, [1])` and
`(5, [2])` sit at the maximal admissible seq-no. -/
def exECconflictMax : ECList :=
  [(0, { underlying := { newEpoch := 1, checkpoints := [⟨5, [1]⟩], pSet := [], qSet := [] }
         lowWatermark := 5, pSet := [], qSet := [] }),
   (1, { underlying := { newEpoch := 1, checkpoints := [⟨5, [2]⟩], pSet := [], qSet := [] }
         lowWatermark := 5, pSet := [], qSet := [] })]

/-- A single epoch change whose low watermark (5) is at or above the
inspected seq-no (3). -/
def exECHighWatermark : ECList :=
  [(0, { underlying := { newEpoch := 1, checkpoints := [], pSet := [], qSet := [] }
         lowWatermark := 5, pSet := [], qSet := [] })]

/-- A candidate p-set entry at epoch 1 with digest `[7]`. -/
def exEntry : SetEntry := ⟨1, 3, [7]⟩

/-- A single epoch change that lets condition A succeed at seq-no 1 under
`exCfg1`: `pSet[1] = (epoch 0, digest [9])` and a matching q-set vote. -/
def exECSelect : ECList :=
  [(0, { underlying := { newEpoch := 1, checkpoints := [], pSet := [], qSet := [] }
         lowWatermark := 0
         pSet := [(1, ⟨0, 1, [9]⟩)]
         qSet := [(1, [(0, [9])])] })]

/-- An epoch change message with one checkpoint, one p-set entry and two
q-set entries, for evaluating the hash-data layout. -/
def exHashEC : EpochChange :=
  { newEpoch := 3, checkpoints := [⟨1, [5]⟩], pSet := [⟨1, 2, [6]⟩],
    qSet := [⟨1, 2, [6]⟩, ⟨2, 3, [7]⟩] }

/-! ## Helper lemmas on association lists -/

theorem alist_mem_update {β : Type} {l : List (Nat × β)} {k : Nat} {v : β}
    {p : Nat × β} (hp : p ∈ alist.update l k v) : p.2 = v ∨ p ∈ l := by
  unfold alist.update at hp
  rcases List.mem_map.mp hp with ⟨q, hq, hpq⟩
  by_cases h : q.1 == k
  · left; simp [h] at hpq; simp [← hpq]
  · right; simp [h] at hpq; simpa [hpq] using hq

theorem alist_lookup_mem {β : Type} {l : List (Nat × β)} {k : Nat} {v : β}
    (h : alist.lookup l k = some v) : ∃ k', (k', v) ∈ l := by
  unfold alist.lookup at h
  rcases Option.map_eq_some'.mp h with ⟨p, hfind, hv⟩
  rcases p with ⟨k0, v0⟩
  cases hv
  exact ⟨k0, List.mem_of_find?_eq_some hfind⟩

theorem newEpochMsgs_next_mem {nodeID : Nat} {cfg : MsgEpochConfig}
    {p : Nat × NextMsg} (hp : p ∈ (newEpochMsgs nodeID cfg).next) :
    p.2.prepare = 1 ∧ p.2.commit = 1 := by
  unfold newEpochMsgs at hp
  rcases List.mem_map.mp hp with ⟨q, _, hpq⟩
  simp [← hpq]

/-! ## C2: epoch classification in `nodeMsgs.process` -/

/-- C2: the spec says `epoch < current → past` and `epoch > current →
future`, but the source's comparisons are inverted: at current epoch 2, a
Prepare from epoch 1 is classified `future` and one from epoch 3 is
classified `past`. Inverted against the code's own release semantics
(`next()` discards `past` as already processed and defers `future`), this
is a code bug; the claim describes the intent. -/
theorem process_epoch_classification_inverted :
    exNodeMsgs.epochMsgs.epochConfig.number = 2 ∧
    exNodeMsgs.process (.prepareMsg 1 1 0 []) = .res .future exNodeMsgs ∧
    exNodeMsgs.process (.prepareMsg 3 1 0 []) = .res .past exNodeMsgs := by
  decide

/-! ## C8: unknown message types -/

/-- C8: the spec says unknown message types are counted as oddities and do
not abort, but the source records the oddity and then panics
("unknown message type"); the source's own TODO comment says the panic
should be a plain return, so the claim describes the intent and the code is
the bug. -/
theorem process_unknown_type_panics :
    exNodeMsgs.process .unknown
      = .panicked "unknown message type"
          { exNodeMsgs with oddities := exNodeMsgs.oddities + 1 } := by
  decide

/-! ## C6: checkpoint release gating -/

/-- C6 counterexample: in the (reachable) initial admitter state with
checkpoint interval 1, the Checkpoint at seq-no 1 is classified `current`
even though the bucket's commit cursor is `1 ≤ 1`; the code requires only
`commit ≥ seq_no`, not the claimed strict `commit > seq_no`. -/
theorem checkpoint_gating_cex :
    (exNodeMsgs.processCheckpoint 1 []).1 = .current ∧
    ∃ p ∈ exNodeMsgs.epochMsgs.next, p.2.commit ≤ 1 := by
  decide

/-- C6 (amended): a Checkpoint is classified `current` only at
`seq_no = next_checkpoint` and only when every bucket's commit cursor is at
least the checkpoint's seq-no (`commit ≥ seq_no`, not the claimed strict
inequality). -/
theorem checkpoint_gating_amended :
    ∀ (n : NodeMsgsSt) (s : Nat) (v : Bytes) (n' : NodeMsgsSt),
      n.processCheckpoint s v = (.current, n') →
      s = n.nextCheckpoint ∧ ∀ p ∈ n.epochMsgs.next, s ≤ p.2.commit := by
  intro n s v n' h
  unfold NodeMsgsSt.processCheckpoint at h
  split_ifs at h with h1 h2 h3
  · simp at h
  · simp at h
  · refine ⟨h2.symm, fun p hp => ?_⟩
    have h3' : ¬ n.epochMsgs.next.any (fun p => p.2.commit < s) = true := h3
    rw [List.any_eq_true] at h3'
    push_neg at h3'
    simpa using h3' p hp
  · simp at h

/-- C6 amended witness: at the initial admitter state, the Checkpoint at
seq-no 1 is current, and indeed `1 = next_checkpoint` and every commit
cursor is `≥ 1`. -/
theorem checkpoint_gating_amended_witness :
    1 = exNodeMsgs.nextCheckpoint ∧ ∀ p ∈ exNodeMsgs.epochMsgs.next, 1 ≤ p.2.commit :=
  checkpoint_gating_amended exNodeMsgs 1 [] (exNodeMsgs.processCheckpoint 1 []).2
    (by decide)

/-! ## C10: the per-bucket cursor invariant `commit ≤ prepare` -/

/-- C10: in every reachable admitter state every bucket satisfies
`commit ≤ prepare` (both start at 1, preprepare/prepare only advance
`prepare`), and a Commit is accepted as `current` only when the commit
cursor equals its seq-no and the prepare cursor has already passed it. -/
theorem commit_le_prepare_invariant :
    (∀ (nodeID : Nat) (cfg : MsgEpochConfig) (em : EpochMsgs),
      EMReachable nodeID cfg em → ∀ p ∈ em.next, p.2.commit ≤ p.2.prepare) ∧
    (∀ (em : EpochMsgs) (s b : Nat),
      (em.processCommit s b).1 = .current →
      ∃ nm, alist.lookup em.next b = some nm ∧ nm.commit = s ∧ s < nm.prepare) := by
  constructor
  · intro nodeID cfg em hreach
    induction hreach with
    | init =>
      intro p hp
      rcases newEpochMsgs_next_mem hp with ⟨h1, h2⟩
      omega
    | step _ hstep ih =>
      cases hstep with
      | preprepareStep s b =>
        intro p hp
        unfold EpochMsgs.processPreprepare at hp
        split at hp
        · exact ih p hp
        · rename_i nm hl
          split_ifs at hp with hld hpast hcur
          · exact ih p hp
          · exact ih p hp
          · rcases alist_mem_update hp with hv | hold
            · rcases alist_lookup_mem hl with ⟨k', hmem⟩
              have h := ih (k', nm) hmem
              rw [hv]
              simp only at h ⊢
              omega
            · exact ih p hold
          · exact ih p hp
      | prepareStep s b =>
        intro p hp
        unfold EpochMsgs.processPrepare at hp
        split at hp
        · exact ih p hp
        · rename_i nm hl
          split_ifs at hp with hld hpast hcur
          · exact ih p hp
          · exact ih p hp
          · rcases alist_mem_update hp with hv | hold
            · rcases alist_lookup_mem hl with ⟨k', hmem⟩
              have h := ih (k', nm) hmem
              rw [hv]
              simp only at h ⊢
              omega
            · exact ih p hold
          · exact ih p hp
      | commitStep s b =>
        intro p hp
        unfold EpochMsgs.processCommit at hp
        split at hp
        · exact ih p hp
        · rename_i nm hl
          split_ifs at hp with hpast hcur
          · exact ih p hp
          · rcases alist_mem_update hp with hv | hold
            · rw [hv]
              simp only
              omega
            · exact ih p hold
          · exact ih p hp
  · intro em s b h
    unfold EpochMsgs.processCommit at h
    split at h
    · simp at h
    · rename_i nm hl
      split_ifs at h with hpast hcur
      exact ⟨nm, hl, hcur.1, by omega⟩

/-- C10 witness: the invariant at the initial state, and a concrete state
(after one accepted Prepare) where a Commit at seq-no 1 is current with
`commit = 1 < prepare`. -/
theorem commit_le_prepare_invariant_witness :
    (∀ p ∈ (newEpochMsgs 0 exMsgCfg).next, p.2.commit ≤ p.2.prepare) ∧
    (∃ nm, alist.lookup ((exNodeMsgs.epochMsgs.processPrepare 1 0).2).next 0 = some nm ∧
      nm.commit = 1 ∧ 1 < nm.prepare) :=
  ⟨commit_le_prepare_invariant.1 0 exMsgCfg _ EMReachable.init,
   commit_le_prepare_invariant.2 (exNodeMsgs.epochMsgs.processPrepare 1 0).2 1 0 (by decide)⟩

/-! ## Helper lemmas on fixed-width chunk concatenation (for C9) -/

theorem flatMap_fixed_length {α β : Type} (f : α → List β) (k : Nat)
    (hk : ∀ x, (f x).length = k) :
    ∀ l : List α, (l.flatMap f).length = k * l.length := by
  intro l
  induction l with
  | nil => simp
  | cons x xs ih =>
    simp only [List.flatMap_cons, List.length_append, hk, ih, List.length_cons, Nat.mul_succ]
    omega

theorem flatMap_fixed_getElem {α β : Type} (f : α → List β) (k : Nat)
    (hk : ∀ x, (f x).length = k) :
    ∀ (l : List α) (i j : Nat), j < k →
      (l.flatMap f)[k * i + j]? = (l[i]?).bind (fun x => (f x)[j]?) := by
  intro l
  induction l with
  | nil => intro i j _; simp
  | cons x xs ih =>
    intro i j hj
    cases i with
    | zero =>
      simp only [List.flatMap_cons, Nat.mul_zero, Nat.zero_add]
      rw [List.getElem?_append_left (by rw [hk]; exact hj)]
      simp
    | succ n =>
      simp only [List.flatMap_cons]
      rw [List.getElem?_append_right (by rw [hk, Nat.mul_succ]; omega)]
      have harith : k * (n + 1) + j - (f x).length = k * n + j := by
        rw [hk, Nat.mul_succ]; omega
      rw [harith, ih n j hj]
      simp

/-! ## C9: the `epochChangeHashData` layout -/

/-- C9: `epochChangeHashData` never hits its internal length-mismatch
panic, its output length is `1 + 2·|checkpoints| + 3·|pSet| + 3·|qSet|`,
element 0 is the big-endian `new_epoch`, and the checkpoint pairs, p-set
triples and q-set triples follow in order at their computed offsets. -/
theorem epoch_change_hash_data_layout :
    ∀ ec : EpochChange, ∃ ld : List Bytes,
      epochChangeHashData ec = .ok ld ∧
      ld.length = 1 + 2 * ec.checkpoints.length + 3 * ec.pSet.length + 3 * ec.qSet.length ∧
      ld[0]? = some (uint64ToBytes ec.newEpoch) ∧
      (∀ i, i < ec.checkpoints.length →
        ld[1 + 2 * i]? = (ec.checkpoints[i]?).map (fun cp => uint64ToBytes cp.seqNo) ∧
        ld[1 + 2 * i + 1]? = (ec.checkpoints[i]?).map (fun cp => cp.value)) ∧
      (∀ i, i < ec.pSet.length →
        ld[1 + 2 * ec.checkpoints.length + 3 * i]?
          = (ec.pSet[i]?).map (fun p => uint64ToBytes p.epoch) ∧
        ld[1 + 2 * ec.checkpoints.length + 3 * i + 1]?
          = (ec.pSet[i]?).map (fun p => uint64ToBytes p.seqNo) ∧
        ld[1 + 2 * ec.checkpoints.length + 3 * i + 2]?
          = (ec.pSet[i]?).map (fun p => p.digest)) ∧
      (∀ i, i < ec.qSet.length →
        ld[1 + 2 * ec.checkpoints.length + 3 * ec.pSet.length + 3 * i]?
          = (ec.qSet[i]?).map (fun q => uint64ToBytes q.epoch) ∧
        ld[1 + 2 * ec.checkpoints.length + 3 * ec.pSet.length + 3 * i + 1]?
          = (ec.qSet[i]?).map (fun q => uint64ToBytes q.seqNo) ∧
        ld[1 + 2 * ec.checkpoints.length + 3 * ec.pSet.length + 3 * i + 2]?
          = (ec.qSet[i]?).map (fun q => q.digest)) := by
  intro ec
  have hklenA : ∀ cp : CheckpointMsg, ([uint64ToBytes cp.seqNo, cp.value] : List Bytes).length = 2 :=
    fun _ => rfl
  have hklenB : ∀ p : SetEntry,
      ([uint64ToBytes p.epoch, uint64ToBytes p.seqNo, p.digest] : List Bytes).length = 3 :=
    fun _ => rfl
  set A := ec.checkpoints.flatMap (fun cp => [uint64ToBytes cp.seqNo, cp.value]) with hA
  set B := ec.pSet.flatMap
    (fun p => [uint64ToBytes p.epoch, uint64ToBytes p.seqNo, p.digest]) with hB
  set C := ec.qSet.flatMap
    (fun q => [uint64ToBytes q.epoch, uint64ToBytes q.seqNo, q.digest]) with hC
  have hlenA : A.length = 2 * ec.checkpoints.length := flatMap_fixed_length _ 2 hklenA _
  have hlenB : B.length = 3 * ec.pSet.length := flatMap_fixed_length _ 3 hklenB _
  have hlenC : C.length = 3 * ec.qSet.length := flatMap_fixed_length _ 3 hklenB _
  refine ⟨uint64ToBytes ec.newEpoch :: (A ++ B ++ C), ?_, ?_, by simp, ?_, ?_, ?_⟩
  · simp only [epochChangeHashData]
    rw [← hA, ← hB, ← hC, if_pos]
    · simp
    · simp only [List.singleton_append, List.length_cons, List.length_append]
      omega
  · simp only [List.length_cons, List.length_append]
    omega
  · intro i hi
    have h1 : (uint64ToBytes ec.newEpoch :: (A ++ B ++ C))[1 + 2 * i]? = (A ++ B ++ C)[2 * i]? := by
      rw [Nat.add_comm 1 (2 * i)]
      exact List.getElem?_cons_succ
    have h2 : (uint64ToBytes ec.newEpoch :: (A ++ B ++ C))[1 + 2 * i + 1]?
        = (A ++ B ++ C)[2 * i + 1]? := by
      rw [Nat.add_comm 1 (2 * i), Nat.add_assoc]
      exact List.getElem?_cons_succ
    have hlt0 : 2 * i < (A ++ B).length := by
      simp only [List.length_append]; omega
    have hlt1 : 2 * i + 1 < (A ++ B).length := by
      simp only [List.length_append]; omega
    have hgc : ec.checkpoints[i]? = some (ec.checkpoints[i]) := List.getElem?_eq_getElem hi
    constructor
    · rw [h1, List.getElem?_append_left hlt0,
        List.getElem?_append_left (by omega),
        show 2 * i = 2 * i + 0 from rfl,
        flatMap_fixed_getElem _ 2 hklenA _ i 0 (by omega), hgc]
      rfl
    · rw [h2, List.getElem?_append_left hlt1,
        List.getElem?_append_left (by omega),
        flatMap_fixed_getElem _ 2 hklenA _ i 1 (by omega), hgc]
      rfl
  · intro i hi
    have hgp : ec.pSet[i]? = some (ec.pSet[i]) := List.getElem?_eq_getElem hi
    have step : ∀ j, j < 3 →
        (uint64ToBytes ec.newEpoch :: (A ++ B ++ C))[1 + 2 * ec.checkpoints.length + 3 * i + j]?
          = (B[3 * i + j]?) := by
      intro j hj
      have h1 : 1 + 2 * ec.checkpoints.length + 3 * i + j
          = (A.length + (3 * i + j)) + 1 := by omega
      rw [h1, List.getElem?_cons_succ, List.append_assoc,
        List.getElem?_append_right (Nat.le_add_right _ _)]
      have h2 : A.length + (3 * i + j) - A.length = 3 * i + j := by omega
      rw [h2, List.getElem?_append_left (by omega)]
    refine ⟨?_, ?_, ?_⟩
    · rw [show 1 + 2 * ec.checkpoints.length + 3 * i
          = 1 + 2 * ec.checkpoints.length + 3 * i + 0 from rfl, step 0 (by omega),
        flatMap_fixed_getElem _ 3 hklenB _ i 0 (by omega), hgp]
      rfl
    · rw [step 1 (by omega), flatMap_fixed_getElem _ 3 hklenB _ i 1 (by omega), hgp]
      rfl
    · rw [step 2 (by omega), flatMap_fixed_getElem _ 3 hklenB _ i 2 (by omega), hgp]
      rfl
  · intro i hi
    have hgq : ec.qSet[i]? = some (ec.qSet[i]) := List.getElem?_eq_getElem hi
    have step : ∀ j, j < 3 →
        (uint64ToBytes ec.newEpoch ::
            (A ++ B ++ C))[1 + 2 * ec.checkpoints.length + 3 * ec.pSet.length + 3 * i + j]?
          = (C[3 * i + j]?) := by
      intro j hj
      have h1 : 1 + 2 * ec.checkpoints.length + 3 * ec.pSet.length + 3 * i + j
          = ((A ++ B).length + (3 * i + j)) + 1 := by
        simp only [List.length_append]; omega
      rw [h1, List.getElem?_cons_succ,
        List.getElem?_append_right (Nat.le_add_right _ _)]
      congr 1
      omega
    refine ⟨?_, ?_, ?_⟩
    · rw [show 1 + 2 * ec.checkpoints.length + 3 * ec.pSet.length + 3 * i
          = 1 + 2 * ec.checkpoints.length + 3 * ec.pSet.length + 3 * i + 0 from rfl,
        step 0 (by omega), flatMap_fixed_getElem _ 3 hklenB _ i 0 (by omega), hgq]
      rfl
    · rw [step 1 (by omega), flatMap_fixed_getElem _ 3 hklenB _ i 1 (by omega), hgq]
      rfl
    · rw [step 2 (by omega), flatMap_fixed_getElem _ 3 hklenB _ i 2 (by omega), hgq]
      rfl

/-- C9 witness: the layout at a concrete epoch change with one checkpoint,
one p-set entry and two q-set entries, with the index bounds discharged at
`i = 1` of the q-set. -/
theorem epoch_change_hash_data_layout_witness :
    ∃ ld : List Bytes,
      epochChangeHashData exHashEC = .ok ld ∧
      ld.length = 1 + 2 * exHashEC.checkpoints.length + 3 * exHashEC.pSet.length
        + 3 * exHashEC.qSet.length ∧
      ld[1 + 2 * exHashEC.checkpoints.length + 3 * exHashEC.pSet.length + 3 * 1]?
        = (exHashEC.qSet[1]?).map (fun q => uint64ToBytes q.epoch) ∧
      ld[1 + 2 * 0]? = (exHashEC.checkpoints[0]?).map (fun cp => uint64ToBytes cp.seqNo) := by
  obtain ⟨ld, hok, hlen, _, hcp, _, hq⟩ := epoch_change_hash_data_layout exHashEC
  exact ⟨ld, hok, hlen, (hq 1 (by decide)).1, (hcp 0 (by decide)).1⟩

/-! ## Helper lemmas on the tally maps -/

theorem recordTally_map_fst_eq {m : List (Bytes × List Nat)} {k : Bytes} {src : Nat}
    {p0 : Bytes × List Nat} (hfind : m.find? (fun p => p.1 == k) = some p0) :
    (m.map (fun p =>
        if p.1 == k then (p.1, if p.2.contains src then p.2 else p.2 ++ [src]) else p)).find?
        (fun p => p.1 == k)
      = some (p0.1, if p0.2.contains src then p0.2 else p0.2 ++ [src]) := by
  have hp0 : (p0.1 == k) = true := by simpa using List.find?_some hfind
  rw [List.find?_map]
  have hcongr : ((fun p : Bytes × List Nat => p.1 == k) ∘
      (fun p : Bytes × List Nat =>
        if p.1 == k then (p.1, if p.2.contains src then p.2 else p.2 ++ [src]) else p))
      = fun p : Bytes × List Nat => p.1 == k := by
    funext q
    simp only [Function.comp_apply]
    by_cases hq : (q.1 == k) = true
    · rw [if_pos hq]
    · rw [if_neg hq]
  rw [hcongr, hfind]
  simp only [Option.map_some']
  rw [if_pos hp0]

theorem lookupTally_recordTally_self (m : List (Bytes × List Nat)) (k : Bytes) (src : Nat) :
    lookupTally (recordTally m k src) k
      = if (lookupTally m k).contains src then lookupTally m k
        else lookupTally m k ++ [src] := by
  unfold recordTally lookupTally
  cases hfind : m.find? (fun p => p.1 == k) with
  | none =>
    rw [List.find?_append, hfind]
    simp
  | some p0 =>
    rw [recordTally_map_fst_eq hfind]
    simp

theorem mem_lookupTally_recordTally (m : List (Bytes × List Nat)) (k : Bytes) (src : Nat) :
    src ∈ lookupTally (recordTally m k src) k := by
  rw [lookupTally_recordTally_self]
  by_cases hc : (lookupTally m k).contains src
  · rw [if_pos hc]
    exact List.elem_iff.mp hc
  · rw [if_neg hc]
    simp

theorem lookupTally_recordTally_other {m : List (Bytes × List Nat)} {k k' : Bytes}
    (src : Nat) (hne : k' ≠ k) :
    lookupTally (recordTally m k src) k' = lookupTally m k' := by
  unfold recordTally lookupTally
  cases hfind : m.find? (fun p => p.1 == k) with
  | none =>
    rw [List.find?_append]
    have hsingle : ([(k, [src])].find? (fun p => p.1 == k') : Option (Bytes × List Nat))
        = none := by
      simp [List.find?_cons, Ne.symm hne]
    rw [hsingle]
    simp
  | some p0 =>
    rw [List.find?_map]
    have hcongr : ((fun p : Bytes × List Nat => p.1 == k') ∘
        (fun p : Bytes × List Nat =>
          if p.1 == k then (p.1, if p.2.contains src then p.2 else p.2 ++ [src]) else p))
        = fun p : Bytes × List Nat => p.1 == k' := by
      funext q
      simp only [Function.comp_apply]
      by_cases hq : (q.1 == k) = true
      · rw [if_pos hq]
      · rw [if_neg hq]
    rw [hcongr]
    cases hfind' : m.find? (fun p => p.1 == k') with
    | none => simp
    | some q0 =>
      have hq0k' : (q0.1 == k') = true := by simpa using List.find?_some hfind'
      have hq0k : ¬ (q0.1 == k) = true := by
        simp only [beq_iff_eq] at hq0k' ⊢
        rw [hq0k']
        exact hne
      simp only [Option.map_some']
      rw [if_neg hq0k]

/-! ## Field preservation through the sequence drive loop -/

theorem advanceStep_fields (s : Seq) :
    s.advanceStep.prepares = s.prepares ∧ s.advanceStep.commits = s.commits ∧
    s.advanceStep.digest = s.digest ∧ s.advanceStep.myId = s.myId ∧
    s.advanceStep.networkConfig = s.networkConfig ∧ s.advanceStep.owner = s.owner := by
  cases hs : s.state <;>
    simp only [Seq.advanceStep, hs, Seq.checkRequests, Seq.prepareStep,
      Seq.checkPrepareQuorum, Seq.checkCommitQuorum] <;>
    (try split_ifs) <;> simp

theorem advanceLoop_fields : ∀ (n : Nat) (s : Seq),
    (Seq.advanceLoop n s).prepares = s.prepares ∧
    (Seq.advanceLoop n s).commits = s.commits ∧
    (Seq.advanceLoop n s).digest = s.digest ∧
    (Seq.advanceLoop n s).myId = s.myId ∧
    (Seq.advanceLoop n s).networkConfig = s.networkConfig ∧
    (Seq.advanceLoop n s).owner = s.owner := by
  intro n
  induction n with
  | zero => intro s; simp [Seq.advanceLoop]
  | succ n ih =>
    intro s
    rw [Seq.advanceLoop]
    rcases advanceStep_fields s with ⟨h1, h2, h3, h4, h5, h6⟩
    split_ifs with hfix
    · exact ⟨h1, h2, h3, h4, h5, h6⟩
    · rcases ih s.advanceStep with ⟨g1, g2, g3, g4, g5, g6⟩
      exact ⟨g1.trans h1, g2.trans h2, g3.trans h3, g4.trans h4, g5.trans h5, g6.trans h6⟩

theorem prepQuorum_advanceStep (s : Seq) : PrepQuorum s.advanceStep ↔ PrepQuorum s := by
  rcases advanceStep_fields s with ⟨h1, _, h3, h4, h5, _⟩
  unfold PrepQuorum
  rw [h1, h3, h4, h5]

theorem commitQuorum_advanceStep (s : Seq) : CommitQuorum s.advanceStep ↔ CommitQuorum s := by
  rcases advanceStep_fields s with ⟨_, h2, h3, h4, h5, _⟩
  unfold CommitQuorum
  rw [h2, h3, h4, h5]

theorem prepQuorum_advanceLoop (n : Nat) (s : Seq) :
    PrepQuorum (Seq.advanceLoop n s) ↔ PrepQuorum s := by
  rcases advanceLoop_fields n s with ⟨h1, _, h3, h4, h5, _⟩
  unfold PrepQuorum
  rw [h1, h3, h4, h5]

theorem commitQuorum_advanceLoop (n : Nat) (s : Seq) :
    CommitQuorum (Seq.advanceLoop n s) ↔ CommitQuorum s := by
  rcases advanceLoop_fields n s with ⟨_, h2, h3, h4, h5, _⟩
  unfold CommitQuorum
  rw [h2, h3, h4, h5]

/-! ## Rank lemmas: which transitions can reach `Prepared` / `Committed` -/

theorem advanceStep_rank_prepared {s : Seq} (h : 5 ≤ stateRank s.advanceStep.state) :
    5 ≤ stateRank s.state ∨ (s.state = .preprepared ∧ PrepQuorum s) := by
  cases hs : s.state <;>
    simp only [Seq.advanceStep, hs, Seq.checkRequests, Seq.prepareStep,
      Seq.checkPrepareQuorum, Seq.checkCommitQuorum] at h
  case uninitialized => simp [stateRank] at h
  case allocated => simp [stateRank] at h
  case pendingRequests =>
    split_ifs at h <;> simp [stateRank, hs] at h
  case ready =>
    split_ifs at h <;> simp [stateRank, hs] at h
  case preprepared =>
    split_ifs at h with h1 h2
    · simp [stateRank, hs] at h
    · right
      refine ⟨rfl, h1, by omega⟩
    · simp [stateRank, hs] at h
  case prepared => left; simp [stateRank]
  case committed => left; simp [stateRank]

theorem advanceStep_rank_committed {s : Seq} (h : 6 ≤ stateRank s.advanceStep.state) :
    6 ≤ stateRank s.state ∨ (s.state = .prepared ∧ CommitQuorum s) := by
  cases hs : s.state <;>
    simp only [Seq.advanceStep, hs, Seq.checkRequests, Seq.prepareStep,
      Seq.checkPrepareQuorum, Seq.checkCommitQuorum] at h
  case uninitialized => simp [stateRank] at h
  case allocated => simp [stateRank] at h
  case pendingRequests =>
    split_ifs at h <;> simp [stateRank, hs] at h
  case ready =>
    split_ifs at h <;> simp [stateRank, hs] at h
  case preprepared =>
    split_ifs at h <;> simp [stateRank, hs] at h
  case prepared =>
    split_ifs at h with h1 h2
    · simp [stateRank, hs] at h
    · right
      refine ⟨rfl, h1, by omega⟩
    · simp [stateRank, hs] at h
  case committed => left; simp [stateRank]

theorem advanceLoop_rank_prepared : ∀ (n : Nat) (s : Seq),
    5 ≤ stateRank (Seq.advanceLoop n s).state →
    5 ≤ stateRank s.state ∨ PrepQuorum s := by
  intro n
  induction n with
  | zero => intro s h; exact Or.inl h
  | succ n ih =>
    intro s h
    rw [Seq.advanceLoop] at h
    split_ifs at h with hfix
    · rcases advanceStep_rank_prepared h with h' | ⟨_, hq⟩
      · exact Or.inl h'
      · exact Or.inr hq
    · rcases ih s.advanceStep h with h' | hq
      · rcases advanceStep_rank_prepared h' with h'' | ⟨_, hq'⟩
        · exact Or.inl h''
        · exact Or.inr hq'
      · exact Or.inr ((prepQuorum_advanceStep s).mp hq)

theorem advanceLoop_rank_committed : ∀ (n : Nat) (s : Seq),
    6 ≤ stateRank (Seq.advanceLoop n s).state →
    6 ≤ stateRank s.state ∨ CommitQuorum s := by
  intro n
  induction n with
  | zero => intro s h; exact Or.inl h
  | succ n ih =>
    intro s h
    rw [Seq.advanceLoop] at h
    split_ifs at h with hfix
    · rcases advanceStep_rank_committed h with h' | ⟨_, hq⟩
      · exact Or.inl h'
      · exact Or.inr hq
    · rcases ih s.advanceStep h with h' | hq
      · rcases advanceStep_rank_committed h' with h'' | ⟨_, hq'⟩
        · exact Or.inl h''
        · exact Or.inr hq'
      · exact Or.inr ((commitQuorum_advanceStep s).mp hq)

/-! ## Quorum checks are no-ops without the quorum condition -/

theorem checkPrepareQuorum_noop {s : Seq} (h : ¬ PrepQuorum s) :
    s.checkPrepareQuorum = s := by
  unfold Seq.checkPrepareQuorum
  split_ifs with h1 h2
  · rfl
  · exact absurd ⟨h1, by omega⟩ h
  · rfl

theorem checkCommitQuorum_noop {s : Seq} (h : ¬ CommitQuorum s) :
    s.checkCommitQuorum = s := by
  unfold Seq.checkCommitQuorum
  split_ifs with h1 h2
  · rfl
  · exact absurd ⟨h1, by omega⟩ h
  · rfl

theorem advanceLoop_fix {s : Seq} (hfix : s.advanceStep = s) (n : Nat) :
    Seq.advanceLoop n s = s := by
  cases n with
  | zero => rfl
  | succ n =>
    rw [Seq.advanceLoop, hfix, if_pos rfl]

theorem prepQuorum_record_other {s : Seq} {k : Bytes} {src : Nat}
    (hkey : k ≠ keyOf s.digest) :
    PrepQuorum { s with prepares := recordTally s.prepares k src } ↔ PrepQuorum s := by
  unfold PrepQuorum
  simp only
  rw [lookupTally_recordTally_other src (Ne.symm hkey)]

theorem commitQuorum_record_other {s : Seq} {k : Bytes} {src : Nat}
    (hkey : k ≠ keyOf s.digest) :
    CommitQuorum { s with commits := recordTally s.commits k src } ↔ CommitQuorum s := by
  unfold CommitQuorum
  simp only
  rw [lookupTally_recordTally_other src (Ne.symm hkey)]

/-! ## C7: `applyBatchHashResult` -/

/-- C7 counterexample: at a node (`myId = 0`) holding the slot of owner 1,
`applyBatchHashResult` stores the digest but records the owner's id 1, not
the local node's id, in the prepare tally. -/
theorem batch_hash_records_owner_cex :
    (exSeqOther.applyBatchHashResult (some [2])).digest = some [2] ∧
    exSeqOther.owner
      ∈ lookupTally (exSeqOther.applyBatchHashResult (some [2])).prepares (keyOf (some [2])) ∧
    exSeqOther.myId
      ∉ lookupTally (exSeqOther.applyBatchHashResult (some [2])).prepares (keyOf (some [2])) := by
  decide

/-- C7 (amended): `applyBatchHashResult(digest)` stores the digest and is
exactly receiving the prepare of the sequence's owner: it records the
owner's id (which equals `myConfig.Id` only on the owner's own node) in
`prepares[digest]` before driving the state machine. -/
theorem batch_hash_records_owner :
    ∀ (s : Seq) (digest : Option Bytes),
      s.applyBatchHashResult digest
        = Seq.applyPrepareMsg { s with digest := digest } s.owner digest ∧
      (s.applyBatchHashResult digest).digest = digest ∧
      s.owner ∈ lookupTally (s.applyBatchHashResult digest).prepares (keyOf digest) := by
  intro s d
  refine ⟨rfl, ?_, ?_⟩
  · rw [Seq.applyBatchHashResult, Seq.applyPrepareMsg, Seq.advanceState,
      (advanceLoop_fields 7 _).2.2.1]
  · rw [Seq.applyBatchHashResult, Seq.applyPrepareMsg, Seq.advanceState,
      (advanceLoop_fields 7 _).1]
    exact mem_lookupTally_recordTally _ _ _

/-! ## C1: quorum safety of the sequence state machine -/

/-- C1: any single operation call that moves a sequence to `Prepared`
leaves it with the local node's id in `prepares` under the node's own
digest and that tally at `intersectionQuorum`; likewise for `Committed`
with `commits`; and a prepare (resp. commit) recorded under a key other
than the node's own digest never causes the corresponding transition. -/
theorem seq_quorum_safety :
    ∀ (op : SeqOp) (s s' : Seq), applySeqOp op s = .ok s' →
      (stateRank s.state < 5 → 5 ≤ stateRank s'.state → PrepQuorum s') ∧
      (stateRank s.state < 6 → 6 ≤ stateRank s'.state → CommitQuorum s') ∧
      (∀ src d, op = .applyPrepareMsgOp src d → s.state = .preprepared → ¬ PrepQuorum s →
        keyOf d ≠ keyOf s.digest → s'.state = .preprepared) ∧
      (∀ src d, op = .applyCommitMsgOp src d → s.state = .prepared → ¬ CommitQuorum s →
        keyOf d ≠ keyOf s.digest → s'.state = .prepared) := by
  intro op s s' h
  cases op with
  | applyPrepareMsgOp src d =>
    simp only [applySeqOp] at h
    injection h with h
    subst h
    refine ⟨?_, ?_, ?_, ?_⟩
    · intro h4 h5
      rw [Seq.applyPrepareMsg, Seq.advanceState] at h5 ⊢
      rcases advanceLoop_rank_prepared 7 _ h5 with h' | hq
      · exact absurd h' (Nat.not_le.mpr h4)
      · exact (prepQuorum_advanceLoop 7 _).mpr hq
    · intro h4 h5
      rw [Seq.applyPrepareMsg, Seq.advanceState] at h5 ⊢
      rcases advanceLoop_rank_committed 7 _ h5 with h' | hq
      · exact absurd h' (Nat.not_le.mpr h4)
      · exact (commitQuorum_advanceLoop 7 _).mpr hq
    · intro src' d' heq hpre hnq hkey
      injection heq with h1 h2
      subst h1
      subst h2
      rw [Seq.applyPrepareMsg, Seq.advanceState]
      have hs1q : ¬ PrepQuorum { s with prepares := recordTally s.prepares (keyOf d) src } :=
        fun hq => hnq ((prepQuorum_record_other hkey).mp hq)
      have hstep : ({ s with prepares := recordTally s.prepares (keyOf d) src } : Seq).advanceStep
          = { s with prepares := recordTally s.prepares (keyOf d) src } := by
        simp only [Seq.advanceStep, hpre]
        exact checkPrepareQuorum_noop hs1q
      rw [advanceLoop_fix hstep]
      exact hpre
    · intro src' d' heq _ _ _
      simp at heq
  | applyCommitMsgOp src d =>
    simp only [applySeqOp] at h
    injection h with h
    subst h
    refine ⟨?_, ?_, ?_, ?_⟩
    · intro h4 h5
      rw [Seq.applyCommitMsg, Seq.advanceState] at h5 ⊢
      rcases advanceLoop_rank_prepared 7 _ h5 with h' | hq
      · exact absurd h' (Nat.not_le.mpr h4)
      · exact (prepQuorum_advanceLoop 7 _).mpr hq
    · intro h4 h5
      rw [Seq.applyCommitMsg, Seq.advanceState] at h5 ⊢
      rcases advanceLoop_rank_committed 7 _ h5 with h' | hq
      · exact absurd h' (Nat.not_le.mpr h4)
      · exact (commitQuorum_advanceLoop 7 _).mpr hq
    · intro src' d' heq _ _ _
      simp at heq
    · intro src' d' heq hpre hnq hkey
      injection heq with h1 h2
      subst h1
      subst h2
      rw [Seq.applyCommitMsg, Seq.advanceState]
      have hs1q : ¬ CommitQuorum { s with commits := recordTally s.commits (keyOf d) src } :=
        fun hq => hnq ((commitQuorum_record_other hkey).mp hq)
      have hstep : ({ s with commits := recordTally s.commits (keyOf d) src } : Seq).advanceStep
          = { s with commits := recordTally s.commits (keyOf d) src } := by
        simp only [Seq.advanceStep, hpre]
        exact checkCommitQuorum_noop hs1q
      rw [advanceLoop_fix hstep]
      exact hpre
  | applyBatchHashResultOp d =>
    simp only [applySeqOp] at h
    injection h with h
    subst h
    refine ⟨?_, ?_, ?_, ?_⟩
    · intro h4 h5
      rw [Seq.applyBatchHashResult, Seq.applyPrepareMsg, Seq.advanceState] at h5 ⊢
      rcases advanceLoop_rank_prepared 7 _ h5 with h' | hq
      · exact absurd h' (Nat.not_le.mpr h4)
      · exact (prepQuorum_advanceLoop 7 _).mpr hq
    · intro h4 h5
      rw [Seq.applyBatchHashResult, Seq.applyPrepareMsg, Seq.advanceState] at h5 ⊢
      rcases advanceLoop_rank_committed 7 _ h5 with h' | hq
      · exact absurd h' (Nat.not_le.mpr h4)
      · exact (commitQuorum_advanceLoop 7 _).mpr hq
    · intro src' d' heq _ _ _
      simp at heq
    · intro src' d' heq _ _ _
      simp at heq
  | allocateOp acks outs =>
    simp only [applySeqOp, Seq.allocate] at h
    split_ifs at h with hstate hempty
    · injection h with h
      subst h
      refine ⟨?_, ?_, ?_, ?_⟩
      · intro h4 h5
        simp only [Seq.applyBatchHashResult, Seq.applyPrepareMsg, Seq.advanceState] at h5 ⊢
        rcases advanceLoop_rank_prepared 7 _ h5 with h' | hq
        · simp [stateRank] at h'
        · exact (prepQuorum_advanceLoop 7 _).mpr hq
      · intro h4 h5
        simp only [Seq.applyBatchHashResult, Seq.applyPrepareMsg, Seq.advanceState] at h5 ⊢
        rcases advanceLoop_rank_committed 7 _ h5 with h' | hq
        · simp [stateRank] at h'
        · exact (commitQuorum_advanceLoop 7 _).mpr hq
      · intro src' d' heq _ _ _
        simp at heq
      · intro src' d' heq _ _ _
        simp at heq
    · injection h with h
      subst h
      refine ⟨?_, ?_, ?_, ?_⟩
      · intro h4 h5
        simp only [Seq.advanceState] at h5 ⊢
        rcases advanceLoop_rank_prepared 7 _ h5 with h' | hq
        · simp [stateRank] at h'
        · exact (prepQuorum_advanceLoop 7 _).mpr hq
      · intro h4 h5
        simp only [Seq.advanceState] at h5 ⊢
        rcases advanceLoop_rank_committed 7 _ h5 with h' | hq
        · simp [stateRank] at h'
        · exact (commitQuorum_advanceLoop 7 _).mpr hq
      · intro src' d' heq _ _ _
        simp at heq
      · intro src' d' heq _ _ _
        simp at heq
  | satisfyOutstandingOp fr =>
    simp only [applySeqOp, Seq.satisfyOutstanding] at h
    split_ifs at h with hc
    · injection h with h
      subst h
      refine ⟨?_, ?_, ?_, ?_⟩
      · intro h4 h5
        rw [Seq.advanceState] at h5 ⊢
        rcases advanceLoop_rank_prepared 7 _ h5 with h' | hq
        · exact absurd h' (Nat.not_le.mpr h4)
        · exact (prepQuorum_advanceLoop 7 _).mpr hq
      · intro h4 h5
        rw [Seq.advanceState] at h5 ⊢
        rcases advanceLoop_rank_committed 7 _ h5 with h' | hq
        · exact absurd h' (Nat.not_le.mpr h4)
        · exact (commitQuorum_advanceLoop 7 _).mpr hq
      · intro src' d' heq _ _ _
        simp at heq
      · intro src' d' heq _ _ _
        simp at heq

/-- C1 witness: at a one-node network, the call recording node 0's own
prepare for its digest `[1]` moves the sequence from `Preprepared` past
`Prepared`, and the quorum condition indeed holds afterwards. -/
theorem seq_quorum_safety_witness : PrepQuorum exSeqPre' :=
  (seq_quorum_safety (.applyPrepareMsgOp 0 (some [1])) exSeqPre exSeqPre' rfl).1
    (by decide) (by decide)

/-! ## Counting helpers for the A1/A2 loops -/

theorem foldl_count {α : Type} (step : Nat → α → Nat) (g : α → Bool)
    (hstep : ∀ acc e, step acc e = acc + (if g e then 1 else 0)) :
    ∀ (l : List α) (acc : Nat), l.foldl step acc = acc + (l.filter g).length := by
  intro l
  induction l with
  | nil => intro acc; simp
  | cons e t ih =>
    intro acc
    rw [List.foldl_cons, hstep, ih (acc + (if g e then 1 else 0))]
    by_cases hg : g e <;> simp [hg] <;> omega

theorem a1Count_filter (l : ECList) (seqNo : Nat) (entry : SetEntry) :
    a1Count l seqNo entry = (l.filter (a1Counted seqNo entry)).length := by
  unfold a1Count
  rw [foldl_count _ (a1Counted seqNo entry) ?_ l 0]
  · simp
  · intro acc e
    unfold a1Counted
    by_cases h1 : seqNo ≤ e.2.lowWatermark
    · have hnlt : ¬ e.2.lowWatermark < seqNo := by omega
      rw [if_pos h1]
      simp [hnlt]
    · have hlt : e.2.lowWatermark < seqNo := by omega
      rw [if_neg h1]
      cases hp : pSetLookup e.2 seqNo with
      | none => simp [hlt, hp]
      | some iE =>
        by_cases h2 : iE.epoch < entry.epoch
        · simp [hlt, hp, h2]
        · by_cases h3 : entry.epoch < iE.epoch
          · have hne : ¬ iE.epoch = entry.epoch := by omega
            simp [hlt, hp, h2, h3, hne]
          · have heq : iE.epoch = entry.epoch := by omega
            by_cases h4 : entry.digest = iE.digest
            · have h4' : iE.digest = entry.digest := h4.symm
              simp [hlt, hp, h2, h3, heq, h4']
            · have h4' : ¬ iE.digest = entry.digest := fun hh => h4 hh.symm
              simp [hlt, hp, h2, h3, heq, h4, h4']

theorem a2Count_filter (l : ECList) (seqNo : Nat) (entry : SetEntry) :
    a2Count l seqNo entry = (l.filter (a2Counted seqNo entry)).length := by
  unfold a2Count
  rw [foldl_count _ (a2Counted seqNo entry) ?_ l 0]
  · simp
  · intro acc e
    unfold a2Counted
    cases hq : qSetLookup e.2 seqNo with
    | none => simp [hq]
    | some es =>
      simp only [hq]
      by_cases ha : (es.any fun p => decide (entry.epoch ≤ p.1 ∧ p.2 = entry.digest)) = true
      · rw [if_pos ha, if_pos ha]
      · rw [if_neg ha, if_neg ha]
        omega

theorem findSome?_eq_some_exists {α β : Type} {f : α → Option β} {b : β} :
    ∀ {l : List α}, l.findSome? f = some b → ∃ a ∈ l, f a = some b := by
  intro l
  induction l with
  | nil => intro h; simp at h
  | cons x xs ih =>
    intro h
    rw [List.findSome?_cons] at h
    cases hx : f x with
    | some c =>
      simp only [hx] at h
      exact ⟨x, by simp, by rw [hx, h]⟩
    | none =>
      simp only [hx] at h
      rcases ih h with ⟨a, ha, hfa⟩
      exact ⟨a, List.mem_cons_of_mem x ha, hfa⟩

/-! ## C5: the A1/A2 acceptance conditions -/

/-- C5 counterexample: the source's A1 loop skips (without counting) an
epoch change whose low watermark is at or above the seq-no, while the
claim's count includes it: at a single epoch change with
`low_watermark = 5` and seq-no 3, the code counts 0 and the claim's
formula counts 1. -/
theorem a1_count_cex :
    a1Count exECHighWatermark 3 exEntry ≠ a1CountClaim exECHighWatermark 3 exEntry := by
  decide

/-- C5 (amended): the A1 count equals the number of epoch changes whose
low watermark is strictly below the seq-no and which have no p-set entry
at the seq-no, or one at a lower epoch, or one at the same epoch with the
candidate's digest (entries with `low_watermark ≥ seq_no` are skipped, not
counted); and a candidate is selected only if A1 reaches
`intersectionQuorum` and A2 reaches `someCorrectQuorum`. -/
theorem a1_count_amended :
    (∀ (l : ECList) (seqNo : Nat) (entry : SetEntry),
      a1Count l seqNo entry = (l.filter (a1Counted seqNo entry)).length) ∧
    (∀ (cfg : NetConfig) (l : ECList) (seqNo : Nat) (entry : SetEntry),
      selectEntry cfg l seqNo = some entry →
      intersectionQuorum cfg ≤ a1Count l seqNo entry ∧
      someCorrectQuorum cfg ≤ a2Count l seqNo entry) := by
  constructor
  · exact a1Count_filter
  · intro cfg l seqNo entry hsel
    unfold selectEntry at hsel
    rcases findSome?_eq_some_exists hsel with ⟨nid, _, hf⟩
    cases hec : ecLookup l nid with
    | none => simp [hec] at hf
    | some ec =>
      simp only [hec] at hf
      cases hp : pSetLookup ec seqNo with
      | none => simp [hp] at hf
      | some e0 =>
        simp only [hp] at hf
        split_ifs at hf with h1 h2
        injection hf with hf
        subst hf
        exact ⟨h1, h2⟩

/-- C5 amended witness: a concrete single-node input where condition A
selects the entry `(epoch 0, seq-no 1, digest [9])` and both thresholds
hold. -/
theorem a1_count_amended_witness :
    intersectionQuorum exCfg1 ≤ a1Count exECSelect 1 ⟨0, 1, [9]⟩ ∧
    someCorrectQuorum exCfg1 ≤ a2Count exECSelect 1 ⟨0, 1, [9]⟩ :=
  a1_count_amended.2 exCfg1 exECSelect 1 ⟨0, 1, [9]⟩ (by decide)

/-! ## Permutation invariance of the epoch-change constructor's counts -/

theorem allCkKeys_perm {l1 l2 : ECList} (hp : l1.Perm l2) :
    (allCkKeys l1).Perm (allCkKeys l2) :=
  List.Perm.flatMap_right _ hp

theorem supportCount_perm {l1 l2 : ECList} (hp : l1.Perm l2) (k : CkKey) :
    supportCount l1 k = supportCount l2 k :=
  (allCkKeys_perm hp).count_eq k

theorem lowWatermarkCount_perm {l1 l2 : ECList} (hp : l1.Perm l2) (s : Nat) :
    lowWatermarkCount l1 s = lowWatermarkCount l2 s :=
  (hp.filter _).length_eq

theorem ckAdmissible_perm {cfg : NetConfig} {l1 l2 : ECList} (hp : l1.Perm l2) (k : CkKey) :
    ckAdmissible cfg l1 k = ckAdmissible cfg l2 k := by
  unfold ckAdmissible
  rw [supportCount_perm hp, lowWatermarkCount_perm hp]

theorem noCkConflict_perm {cfg : NetConfig} {l1 l2 : ECList} (hp : l1.Perm l2)
    (h : NoCkConflict cfg l1) : NoCkConflict cfg l2 := by
  intro k1 hk1 k2 hk2 ha1 ha2 hseq
  exact h k1 ((allCkKeys_perm hp).mem_iff.mpr hk1) k2 ((allCkKeys_perm hp).mem_iff.mpr hk2)
    (by rw [ckAdmissible_perm hp]; exact ha1)
    (by rw [ckAdmissible_perm hp]; exact ha2) hseq

theorem a1Count_perm {l1 l2 : ECList} (hp : l1.Perm l2) (s : Nat) (entry : SetEntry) :
    a1Count l1 s entry = a1Count l2 s entry := by
  rw [a1Count_filter, a1Count_filter, (hp.filter _).length_eq]

theorem a2Count_perm {l1 l2 : ECList} (hp : l1.Perm l2) (s : Nat) (entry : SetEntry) :
    a2Count l1 s entry = a2Count l2 s entry := by
  rw [a2Count_filter, a2Count_filter, (hp.filter _).length_eq]

theorem bCount_perm {l1 l2 : ECList} (hp : l1.Perm l2) (s : Nat) :
    bCount l1 s = bCount l2 s := by
  unfold bCount
  exact (hp.filter _).length_eq

theorem ecLookup_perm : ∀ {l1 l2 : ECList}, l1.Perm l2 → ECKeysNodup l1 →
    ∀ nid : Nat, ecLookup l1 nid = ecLookup l2 nid := by
  intro l1 l2 hp
  induction hp with
  | nil => intro _ _; rfl
  | cons x p ih =>
    intro hnd nid
    have hndt : ECKeysNodup _ := (List.nodup_cons.mp hnd).2
    unfold ecLookup
    rw [List.find?_cons, List.find?_cons]
    cases hx : (x.1 == nid)
    · simp only
      exact ih hndt nid
    · rfl
  | swap x y p =>
    intro hnd nid
    unfold ECKeysNodup at hnd
    simp only [List.map_cons, List.nodup_cons, List.mem_cons] at hnd
    unfold ecLookup
    rw [List.find?_cons, List.find?_cons, List.find?_cons, List.find?_cons]
    cases hx : (x.1 == nid) <;> cases hy : (y.1 == nid) <;> simp only
    case true.true =>
      exfalso
      have hxe : x.1 = nid := by simpa using hx
      have hye : y.1 = nid := by simpa using hy
      exact hnd.1 (Or.inl (hye.trans hxe.symm))
  | trans h12 h23 ih12 ih23 =>
    rename_i la lb lc
    intro hnd nid
    have hnd2 : ECKeysNodup lb := by
      unfold ECKeysNodup at hnd ⊢
      exact (h12.map (fun e => e.1)).nodup_iff.mp hnd
    rw [ih12 hnd nid, ih23 hnd2 nid]

theorem findSome?_congr {α β : Type} {f g : α → Option β} :
    ∀ {l : List α}, (∀ a ∈ l, f a = g a) → l.findSome? f = l.findSome? g := by
  intro l
  induction l with
  | nil => intro _; rfl
  | cons x xs ih =>
    intro h
    rw [List.findSome?_cons, List.findSome?_cons, h x (by simp)]
    cases hgx : g x with
    | some c => simp only
    | none =>
      simp only
      exact ih (fun a ha => h a (List.mem_cons_of_mem x ha))

theorem selectEntry_perm (cfg : NetConfig) {l1 l2 : ECList} (hp : l1.Perm l2)
    (hnd : ECKeysNodup l1) (s : Nat) :
    selectEntry cfg l1 s = selectEntry cfg l2 s := by
  unfold selectEntry
  apply findSome?_congr
  intro nid _
  rw [ecLookup_perm hp hnd nid]
  cases hec : ecLookup l2 nid with
  | none => rfl
  | some ec =>
    simp only
    cases hpp : pSetLookup ec s with
    | none => rfl
    | some e0 =>
      simp only
      rw [a1Count_perm hp, a2Count_perm hp]

theorem fillFinalPreprepares_perm (cfg : NetConfig) {l1 l2 : ECList} (hp : l1.Perm l2)
    (hnd : ECKeysNodup l1) (maxS : Nat) :
    ∀ (rem off : Nat),
      fillFinalPreprepares cfg l1 maxS off rem = fillFinalPreprepares cfg l2 maxS off rem := by
  intro rem
  induction rem with
  | zero => intro off; rfl
  | succ n ih =>
    intro off
    simp only [fillFinalPreprepares]
    rw [selectEntry_perm cfg hp hnd (maxS + off + 1)]
    cases hsel : selectEntry cfg l2 (maxS + off + 1) with
    | some e =>
      simp only
      rw [ih (off + 1)]
    | none =>
      simp only
      rw [bCount_perm hp (maxS + off + 1)]
      split_ifs with hb
      · rw [ih (off + 1)]
      · rfl

theorem lastNewEpoch_mem : ∀ (l : ECList), l ≠ [] →
    ∃ e ∈ l, lastNewEpoch l = e.2.underlying.newEpoch := by
  intro l
  induction l with
  | nil => intro h; exact absurd rfl h
  | cons x xs ih =>
    intro _
    cases hxs : xs with
    | nil => exact ⟨x, by simp, by simp [lastNewEpoch, List.foldl_cons]⟩
    | cons y ys =>
      rcases ih (by simp [hxs]) with ⟨e, he, hv⟩
      refine ⟨e, List.mem_cons_of_mem x (hxs ▸ he), ?_⟩
      rw [← hv]
      subst hxs
      rfl

theorem lastNewEpoch_eq {l1 l2 : ECList} (hp : l1.Perm l2) (hs : SameNewEpoch l1) :
    lastNewEpoch l1 = lastNewEpoch l2 := by
  cases hl1 : l1 with
  | nil =>
    have h2 : l2 = [] := by
      cases hl2 : l2 with
      | nil => rfl
      | cons y ys =>
        exfalso
        have := hp.length_eq
        rw [hl1, hl2] at this
        simp at this
    rw [h2]
  | cons x xs =>
    subst hl1
    have h2ne : l2 ≠ [] := by
      intro h
      subst h
      have := hp.length_eq
      simp at this
    rcases lastNewEpoch_mem (x :: xs) (by simp) with ⟨e1, he1, hv1⟩
    rcases lastNewEpoch_mem l2 h2ne with ⟨e2, he2, hv2⟩
    rw [hv1, hv2]
    exact hs e1 he1 e2 (hp.mem_iff.mpr he2)

/-! ## Characterization of the checkpoint-selection loop -/

theorem selectCkLoop_ok_spec (cfg : NetConfig) (l : ECList) (hnc : NoCkConflict cfg l) :
    ∀ (ks : List CkKey) (acc : Option CkKey),
      (∀ k ∈ ks, k ∈ allCkKeys l) → ks.Nodup →
      (match acc with
       | none => True
       | some m => ckAdmissible cfg l m = true ∧ m ∈ allCkKeys l ∧ m ∉ ks) →
      ∃ r, selectCkLoop cfg l acc ks = .ok r ∧
        (match r with
         | none => acc = none ∧ ∀ k ∈ ks, ¬ ckAdmissible cfg l k = true
         | some m =>
           m ∈ allCkKeys l ∧ ckAdmissible cfg l m = true ∧
           (acc = some m ∨ m ∈ ks) ∧
           (∀ k ∈ ks, ckAdmissible cfg l k = true → k.seqNo ≤ m.seqNo) ∧
           (∀ m', acc = some m' → m'.seqNo ≤ m.seqNo)) := by
  intro ks
  induction ks with
  | nil =>
    intro acc _ _ hacc
    cases acc with
    | none => exact ⟨none, rfl, rfl, by simp⟩
    | some m =>
      obtain ⟨hadm, hmem, _⟩ := hacc
      refine ⟨some m, rfl, hmem, hadm, Or.inl rfl, by simp, ?_⟩
      intro m' hm'
      injection hm' with hm'
      subst hm'
      exact Nat.le_refl _
  | cons k ks ih =>
    intro acc hsub hnodup hacc
    have hkall : k ∈ allCkKeys l := hsub k (List.mem_cons_self k ks)
    have hsub' : ∀ k' ∈ ks, k' ∈ allCkKeys l :=
      fun k' h => hsub k' (List.mem_cons_of_mem k h)
    obtain ⟨hknotin, hnodup'⟩ := List.nodup_cons.mp hnodup
    by_cases hadm : ckAdmissible cfg l k = true
    · cases acc with
      | none =>
        simp only [selectCkLoop]
        rw [if_pos hadm]
        rcases ih (some k) hsub' hnodup' ⟨hadm, hkall, hknotin⟩ with ⟨r, hr, hspec⟩
        refine ⟨r, hr, ?_⟩
        cases r with
        | none => exact absurd hspec.1 (by simp)
        | some m =>
          obtain ⟨hmall, hmadm, hor, hbound, haccb⟩ := hspec
          refine ⟨hmall, hmadm, Or.inr ?_, ?_, ?_⟩
          · rcases hor with h | h
            · injection h with h
              exact h ▸ List.mem_cons_self k ks
            · exact List.mem_cons_of_mem k h
          · intro k' hk' hadm'
            rcases List.mem_cons.mp hk' with rfl | h
            · exact haccb k' rfl
            · exact hbound k' h hadm'
          · intro m' hm'
            cases hm'
      | some m0 =>
        obtain ⟨hm0adm, hm0all, hm0notin⟩ := hacc
        have hm0notin' : m0 ∉ ks := fun h => hm0notin (List.mem_cons_of_mem k h)
        simp only [selectCkLoop]
        rw [if_pos hadm]
        by_cases hlt : k.seqNo < m0.seqNo
        · rw [if_pos hlt]
          rcases ih (some m0) hsub' hnodup' ⟨hm0adm, hm0all, hm0notin'⟩ with ⟨r, hr, hspec⟩
          refine ⟨r, hr, ?_⟩
          cases r with
          | none => exact absurd hspec.1 (by simp)
          | some m =>
            obtain ⟨hmall, hmadm, hor, hbound, haccb⟩ := hspec
            refine ⟨hmall, hmadm, ?_, ?_, haccb⟩
            · rcases hor with h | h
              · exact Or.inl h
              · exact Or.inr (List.mem_cons_of_mem k h)
            · intro k' hk' hadm'
              rcases List.mem_cons.mp hk' with rfl | h
              · have := haccb m0 rfl
                omega
              · exact hbound k' h hadm'
        · rw [if_neg hlt]
          by_cases heq : m0.seqNo = k.seqNo
          · exfalso
            have hm0k : m0 = k := hnc m0 hm0all k hkall hm0adm hadm heq
            exact hm0notin (hm0k ▸ List.mem_cons_self k ks)
          · rw [if_neg heq]
            have hm0lt : m0.seqNo < k.seqNo := by omega
            rcases ih (some k) hsub' hnodup' ⟨hadm, hkall, hknotin⟩ with ⟨r, hr, hspec⟩
            refine ⟨r, hr, ?_⟩
            cases r with
            | none => exact absurd hspec.1 (by simp)
            | some m =>
              obtain ⟨hmall, hmadm, hor, hbound, haccb⟩ := hspec
              refine ⟨hmall, hmadm, Or.inr ?_, ?_, ?_⟩
              · rcases hor with h | h
                · injection h with h
                  exact h ▸ List.mem_cons_self k ks
                · exact List.mem_cons_of_mem k h
              · intro k' hk' hadm'
                rcases List.mem_cons.mp hk' with rfl | h
                · exact haccb k' rfl
                · exact hbound k' h hadm'
              · intro m' hm'
                injection hm' with hm'
                subst hm'
                have := haccb k rfl
                omega
    · simp only [selectCkLoop]
      rw [if_neg hadm]
      cases acc with
      | none =>
        rcases ih none hsub' hnodup' trivial with ⟨r, hr, hspec⟩
        refine ⟨r, hr, ?_⟩
        cases r with
        | none =>
          refine ⟨rfl, ?_⟩
          intro k' hk'
          rcases List.mem_cons.mp hk' with rfl | h
          · exact hadm
          · exact hspec.2 k' h
        | some m =>
          obtain ⟨hmall, hmadm, hor, hbound, haccb⟩ := hspec
          refine ⟨hmall, hmadm, ?_, ?_, haccb⟩
          · rcases hor with h | h
            · cases h
            · exact Or.inr (List.mem_cons_of_mem k h)
          · intro k' hk' hadm'
            rcases List.mem_cons.mp hk' with rfl | h
            · exact absurd hadm' hadm
            · exact hbound k' h hadm'
      | some m0 =>
        obtain ⟨hm0adm, hm0all, hm0notin⟩ := hacc
        have hm0notin' : m0 ∉ ks := fun h => hm0notin (List.mem_cons_of_mem k h)
        rcases ih (some m0) hsub' hnodup' ⟨hm0adm, hm0all, hm0notin'⟩ with ⟨r, hr, hspec⟩
        refine ⟨r, hr, ?_⟩
        cases r with
        | none => exact absurd hspec.1 (by simp)
        | some m =>
          obtain ⟨hmall, hmadm, hor, hbound, haccb⟩ := hspec
          refine ⟨hmall, hmadm, ?_, ?_, haccb⟩
          · rcases hor with h | h
            · exact Or.inl h
            · exact Or.inr (List.mem_cons_of_mem k h)
          · intro k' hk' hadm'
            rcases List.mem_cons.mp hk' with rfl | h
            · exact absurd hadm' hadm
            · exact hbound k' h hadm'

theorem selectCheckpoint_spec (cfg : NetConfig) (l : ECList) (hnc : NoCkConflict cfg l) :
    ∃ r, selectCheckpoint cfg l = .ok r ∧ SelSpec cfg l r := by
  rcases selectCkLoop_ok_spec cfg l hnc (candidateKeys l) none
      (fun k hk => List.mem_dedup.mp hk) (List.nodup_dedup _) trivial with ⟨r, hr, hspec⟩
  refine ⟨r, hr, ?_⟩
  cases r with
  | none => exact fun k hk => hspec.2 k (List.mem_dedup.mpr hk)
  | some m =>
    obtain ⟨hmall, hmadm, _, hbound, _⟩ := hspec
    exact ⟨hmall, hmadm, fun k hk hadm => hbound k (List.mem_dedup.mpr hk) hadm⟩

theorem selSpec_unique {cfg : NetConfig} {l : ECList} (hnc : NoCkConflict cfg l)
    {r1 r2 : Option CkKey} (h1 : SelSpec cfg l r1) (h2 : SelSpec cfg l r2) : r1 = r2 := by
  cases r1 with
  | none =>
    cases r2 with
    | none => rfl
    | some m2 => exact absurd h2.2.1 (h1 m2 h2.1)
  | some m1 =>
    cases r2 with
    | none => exact absurd h1.2.1 (h2 m1 h1.1)
    | some m2 =>
      have e1 : m2.seqNo ≤ m1.seqNo := h1.2.2 m2 h2.1 h2.2.1
      have e2 : m1.seqNo ≤ m2.seqNo := h2.2.2 m1 h1.1 h1.2.1
      have heq : m1.seqNo = m2.seqNo := by omega
      rw [hnc m1 h1.1 m2 h2.1 h1.2.1 h2.2.1 heq]

theorem selSpec_perm {cfg : NetConfig} {l1 l2 : ECList} (hp : l1.Perm l2) {r : Option CkKey}
    (h : SelSpec cfg l1 r) : SelSpec cfg l2 r := by
  cases r with
  | none =>
    intro k hk
    rw [← ckAdmissible_perm hp k]
    exact h k ((allCkKeys_perm hp).mem_iff.mpr hk)
  | some m =>
    refine ⟨(allCkKeys_perm hp).mem_iff.mp h.1, (ckAdmissible_perm hp m) ▸ h.2.1, ?_⟩
    intro k hk hadm
    exact h.2.2 k ((allCkKeys_perm hp).mem_iff.mpr hk) ((ckAdmissible_perm hp k) ▸ hadm)

theorem selectCheckpoint_perm (cfg : NetConfig) {l1 l2 : ECList} (hp : l1.Perm l2)
    (hnc : NoCkConflict cfg l1) :
    selectCheckpoint cfg l1 = selectCheckpoint cfg l2 := by
  rcases selectCheckpoint_spec cfg l1 hnc with ⟨r1, h1, hs1⟩
  rcases selectCheckpoint_spec cfg l2 (noCkConflict_perm hp hnc) with ⟨r2, h2, hs2⟩
  rw [h1, h2, selSpec_unique (noCkConflict_perm hp hnc) (selSpec_perm hp hs1) hs2]

/-! ## C3: determinism of `constructNewEpochConfig` -/

/-- C3 counterexample: two iteration orders of the same two-binding
epoch-changes map yield different outputs, because `newEpochNumber` is
overwritten on each iteration of the map-ordered grouping loop and the two
bindings carry different `NewEpoch` values: the byte-identity claim fails
on the `Config.Number` field. -/
theorem construct_determinism_cex :
    exECl12.Perm exECl21 ∧ ECKeysNodup exECl12 ∧
    constructNewEpochConfig exCfg2 [] exECl12
      ≠ constructNewEpochConfig exCfg2 [] exECl21 := by
  decide

/-- C3 (amended): `constructNewEpochConfig` is iteration-order independent
provided all epoch changes in the map carry the same `NewEpoch` value and
no two distinct admissible checkpoint candidates share a seq-no (the two
map-order dependencies of the source: the overwritten `newEpochNumber` and
the order-dependent conflicting-checkpoint panic). -/
theorem construct_determinism_amended :
    ∀ (cfg : NetConfig) (newLeaders : List Nat) (l1 l2 : ECList),
      l1.Perm l2 → ECKeysNodup l1 → SameNewEpoch l1 → NoCkConflict cfg l1 →
      constructNewEpochConfig cfg newLeaders l1
        = constructNewEpochConfig cfg newLeaders l2 := by
  intro cfg nl l1 l2 hp hnd hsame hnc
  unfold constructNewEpochConfig
  rw [← selectCheckpoint_perm cfg hp hnc]
  cases hsel : selectCheckpoint cfg l1 with
  | error e => rfl
  | ok r =>
    cases r with
    | none => rfl
    | some maxCk =>
      simp only
      rw [fillFinalPreprepares_perm cfg hp hnd maxCk.seqNo (2 * cfg.checkpointInterval) 0,
        lastNewEpoch_eq hp hsame]

/-- C3 amended witness: with both bindings carrying `NewEpoch = 1` and a
single admissible checkpoint, the two iteration orders agree. -/
theorem construct_determinism_amended_witness :
    constructNewEpochConfig exCfg2 [] exECsame12
      = constructNewEpochConfig exCfg2 [] exECsame21 :=
  construct_determinism_amended exCfg2 [] exECsame12 exECsame21
    (by decide) (by decide) (by decide) (by decide)

/-! ## C4: the conflicting-checkpoint abort -/

theorem selectCkLoop_error_one (cfg : NetConfig) (l : ECList) :
    ∀ (ks : List CkKey) (m0 k : CkKey) (s : Nat),
      k ∈ ks → ckAdmissible cfg l k = true → k.seqNo = s → m0.seqNo = s →
      (∀ k' ∈ ks, ckAdmissible cfg l k' = true → k'.seqNo ≤ s) →
      selectCkLoop cfg l (some m0) ks = .error () := by
  intro ks
  induction ks with
  | nil =>
    intro m0 k s hk
    simp at hk
  | cons h t ih =>
    intro m0 k s hk hadm hks hm0 hbound
    have hboundt : ∀ k' ∈ t, ckAdmissible cfg l k' = true → k'.seqNo ≤ s :=
      fun k' h' => hbound k' (List.mem_cons_of_mem h h')
    by_cases hadmh : ckAdmissible cfg l h = true
    · simp only [selectCkLoop]
      rw [if_pos hadmh]
      by_cases hlt : h.seqNo < m0.seqNo
      · rw [if_pos hlt]
        have hkt : k ∈ t := by
          rcases List.mem_cons.mp hk with rfl | ht
          · exfalso; omega
          · exact ht
        exact ih m0 k s hkt hadm hks hm0 hboundt
      · have hhs : h.seqNo ≤ s := hbound h (List.mem_cons_self h t) hadmh
        have heq : m0.seqNo = h.seqNo := by omega
        rw [if_neg hlt, if_pos heq]
    · simp only [selectCkLoop]
      rw [if_neg hadmh]
      have hkt : k ∈ t := by
        rcases List.mem_cons.mp hk with rfl | ht
        · exact absurd hadm hadmh
        · exact ht
      exact ih m0 k s hkt hadm hks hm0 hboundt

theorem selectCkLoop_error_two (cfg : NetConfig) (l : ECList) :
    ∀ (ks : List CkKey) (k1 k2 : CkKey) (s : Nat) (acc : Option CkKey),
      k1 ∈ ks → k2 ∈ ks → k1 ≠ k2 →
      ckAdmissible cfg l k1 = true → ckAdmissible cfg l k2 = true →
      k1.seqNo = s → k2.seqNo = s →
      (∀ k' ∈ ks, ckAdmissible cfg l k' = true → k'.seqNo ≤ s) →
      (match acc with | none => True | some m => m.seqNo ≤ s) →
      selectCkLoop cfg l acc ks = .error () := by
  intro ks
  induction ks with
  | nil =>
    intro k1 k2 s acc hk1
    simp at hk1
  | cons h t ih =>
    intro k1 k2 s acc hk1 hk2 hne hadm1 hadm2 hs1 hs2 hbound hacc
    have hboundt : ∀ k' ∈ t, ckAdmissible cfg l k' = true → k'.seqNo ≤ s :=
      fun k' h' => hbound k' (List.mem_cons_of_mem h h')
    by_cases hadmh : ckAdmissible cfg l h = true
    · have hhs : h.seqNo ≤ s := hbound h (List.mem_cons_self h t) hadmh
      cases acc with
      | none =>
        simp only [selectCkLoop]
        rw [if_pos hadmh]
        by_cases hh1 : h = k1
        · have h2t : k2 ∈ t := by
            rcases List.mem_cons.mp hk2 with rfl | ht
            · exact absurd hh1.symm hne
            · exact ht
          exact selectCkLoop_error_one cfg l t h k2 s h2t hadm2 hs2
            (by rw [hh1, hs1]) hboundt
        · by_cases hh2 : h = k2
          · have h1t : k1 ∈ t := by
              rcases List.mem_cons.mp hk1 with rfl | ht
              · exact absurd hh2 hne
              · exact ht
            exact selectCkLoop_error_one cfg l t h k1 s h1t hadm1 hs1
              (by rw [hh2, hs2]) hboundt
          · have h1t : k1 ∈ t := by
              rcases List.mem_cons.mp hk1 with rfl | ht
              · exact absurd rfl hh1
              · exact ht
            have h2t : k2 ∈ t := by
              rcases List.mem_cons.mp hk2 with rfl | ht
              · exact absurd rfl hh2
              · exact ht
            exact ih k1 k2 s (some h) h1t h2t hne hadm1 hadm2 hs1 hs2 hboundt hhs
      | some m0 =>
        have hm0 : m0.seqNo ≤ s := hacc
        simp only [selectCkLoop]
        rw [if_pos hadmh]
        by_cases hlt : h.seqNo < m0.seqNo
        · rw [if_pos hlt]
          have h1t : k1 ∈ t := by
            rcases List.mem_cons.mp hk1 with rfl | ht
            · exfalso; omega
            · exact ht
          have h2t : k2 ∈ t := by
            rcases List.mem_cons.mp hk2 with rfl | ht
            · exfalso; omega
            · exact ht
          exact ih k1 k2 s (some m0) h1t h2t hne hadm1 hadm2 hs1 hs2 hboundt hm0
        · by_cases heqc : m0.seqNo = h.seqNo
          · rw [if_neg hlt, if_pos heqc]
          · rw [if_neg hlt, if_neg heqc]
            by_cases hh1 : h = k1
            · have h2t : k2 ∈ t := by
                rcases List.mem_cons.mp hk2 with rfl | ht
                · exact absurd hh1.symm hne
                · exact ht
              exact selectCkLoop_error_one cfg l t h k2 s h2t hadm2 hs2
                (by rw [hh1, hs1]) hboundt
            · by_cases hh2 : h = k2
              · have h1t : k1 ∈ t := by
                  rcases List.mem_cons.mp hk1 with rfl | ht
                  · exact absurd hh2 hne
                  · exact ht
                exact selectCkLoop_error_one cfg l t h k1 s h1t hadm1 hs1
                  (by rw [hh2, hs2]) hboundt
              · have h1t : k1 ∈ t := by
                  rcases List.mem_cons.mp hk1 with rfl | ht
                  · exact absurd rfl hh1
                  · exact ht
                have h2t : k2 ∈ t := by
                  rcases List.mem_cons.mp hk2 with rfl | ht
                  · exact absurd rfl hh2
                  · exact ht
                exact ih k1 k2 s (some h) h1t h2t hne hadm1 hadm2 hs1 hs2 hboundt hhs
    · simp only [selectCkLoop]
      rw [if_neg hadmh]
      have h1t : k1 ∈ t := by
        rcases List.mem_cons.mp hk1 with rfl | ht
        · exact absurd hadm1 hadmh
        · exact ht
      have h2t : k2 ∈ t := by
        rcases List.mem_cons.mp hk2 with rfl | ht
        · exact absurd hadm2 hadmh
        · exact ht
      exact ih k1 k2 s acc h1t h2t hne hadm1 hadm2 hs1 hs2 hboundt hacc

/-- C4 counterexample: with a third admissible checkpoint `(9, [3])`
iterated first, the selection loop skips both admissible conflicting
candidates `(5, [1])` and `(5, [2])` (their seq-no is below the running
maximum) and the constructor returns without the safety-failure abort. -/
theorem checkpoint_conflict_abort_cex :
    (⟨5, [1]⟩ : CkKey) ∈ allCkKeys exECconflictHigh ∧
    (⟨5, [2]⟩ : CkKey) ∈ allCkKeys exECconflictHigh ∧
    ckAdmissible exCfg2 exECconflictHigh ⟨5, [1]⟩ = true ∧
    ckAdmissible exCfg2 exECconflictHigh ⟨5, [2]⟩ = true ∧
    constructNewEpochConfig exCfg2 [] exECconflictHigh ≠ .error () := by
  decide

/-- C4 (amended): the fatal safety-failure abort is raised — under every
iteration order — whenever two distinct admissible candidates share a
seq-no that is maximal among admissible candidates; when a strictly higher
admissible candidate exists, iteration orders that reach it first skip the
abort. -/
theorem checkpoint_conflict_abort_amended :
    ∀ (cfg : NetConfig) (newLeaders : List Nat) (l : ECList) (k1 k2 : CkKey),
      k1 ∈ allCkKeys l → k2 ∈ allCkKeys l → k1 ≠ k2 →
      ckAdmissible cfg l k1 = true → ckAdmissible cfg l k2 = true →
      k1.seqNo = k2.seqNo →
      (∀ k ∈ allCkKeys l, ckAdmissible cfg l k = true → k.seqNo ≤ k1.seqNo) →
      constructNewEpochConfig cfg newLeaders l = .error () := by
  intro cfg nl l k1 k2 h1 h2 hne ha1 ha2 hseq hbound
  have herr : selectCheckpoint cfg l = .error () :=
    selectCkLoop_error_two cfg l (candidateKeys l) k1 k2 k1.seqNo none
      (List.mem_dedup.mpr h1) (List.mem_dedup.mpr h2) hne ha1 ha2 rfl hseq.symm
      (fun k hk => hbound k (List.mem_dedup.mp hk)) trivial
  unfold constructNewEpochConfig
  rw [herr]

/-- C4 amended witness: two conflicting admissible checkpoints at the
maximal admissible seq-no 5 force the abort. -/
theorem checkpoint_conflict_abort_amended_witness :
    constructNewEpochConfig exCfg2 [] exECconflictMax = .error () :=
  checkpoint_conflict_abort_amended exCfg2 [] exECconflictMax ⟨5, [1]⟩ ⟨5, [2]⟩
    (by decide) (by decide) (by decide) (by decide) (by decide) (by decide) (by decide)

end Mirbft
